import Mathlib

/-!
Shallow embedding of the chain-event subscription and historical-replay
engine of the cere-ddc-sdk-go blockchain client: `StartEventsListening`,
`RegisterEventsListener`, `processSystemEventsStorageChanges` and the
`pendingEvents` buffer (src/blockchain/pallets/ddcclusters.go, second
compilation unit, package `blockchain`).

Modelling conventions:
* opaque external data — decoded event batches (`*pallets.Events`),
  block hashes (`types.Hash`), raw storage blobs, storage keys — is
  modelled as natural numbers; Go errors as strings;
* block numbers (`types.BlockNumber`, a uint32) are naturals: no
  arithmetic in the engine can wrap a uint32 (the backfill counter is
  bounded by `subscriptionStartBlock`, itself a uint32 value);
* the RPC layer (`c.RPC.State`, `c.RPC.Chain`) is an explicit record of
  fallible functions, the out-of-scope external collaborator;
* mutex-protected method bodies are treated as atomic steps, and the
  concurrent interleaving of the dispatcher with a listener's backfill
  goroutine is an explicit schedule parameter (how the stream of live
  notifications splits around the queue-drain phase);
* bounded loops (`for currentBlock < subscriptionStartBlock`, the
  drain loop of `pendingEvents.Do`, the id-allocation scan) are
  structural recursion on an explicit fuel argument that dominates the
  trip count, keeping every definition computable by `rfl`.
-/

namespace DdcEvents

/-- Decoded event batch (`*pallets.Events`), opaque to the engine. -/
abbrev Events := Nat

/-- Block hash (`types.Hash`), opaque. -/
abbrev Hash := Nat

/-- Block number (`types.BlockNumber`). -/
abbrev BlockNumber := Nat

/-- Raw SCALE blob stored under the `System.Events` key, opaque. -/
abbrev RawData := Nat

/-- Storage key (`types.StorageKey`), opaque. -/
abbrev StorageKey := Nat

/-- Mirrors Go `blockEvents`: one buffered (events, hash, number) triple.
The block number is written as a literal `Nat` (it is a `BlockNumber`). -/
structure BlockEvents where
  events : Events
  hash : Hash
  number : Nat
deriving DecidableEq, Repr

/-- Mirrors Go `pendingEvents`: a FIFO list plus the one-way `done` latch.
The `sync.Mutex` is modelled by treating each method body (and each loop
iteration of `Do`) as one atomic step. -/
structure PendingEvents where
  list : List BlockEvents
  done : Bool
deriving DecidableEq, Repr

/-- Mirrors `pendingEvents.TryPush` (lines 387-400): under the mutex, if
the queue is not `done`, append the entry and report `true`; otherwise
leave the queue untouched and report `false`. -/
def PendingEvents.TryPush (pe : PendingEvents) (events : Events) (hash : Hash)
    (number : BlockNumber) : Bool × PendingEvents :=
  if !pe.done then
    (true, { pe with list := pe.list ++ [⟨events, hash, number⟩] })
  else
    (false, pe)

/-- Folds `TryPush` over a batch of entries arriving from the dispatcher
between two critical sections, keeping only the queue state (each entry's
accept/reject outcome is recovered separately where needed). -/
def PendingEvents.pushBatch (pe : PendingEvents) (batch : List BlockEvents) :
    PendingEvents :=
  batch.foldl (fun q e => (q.TryPush e.events e.hash e.number).2) pe

/-- Fuel-indexed loop of `pendingEvents.Do` (lines 402-417), run against a
schedule `ps` of concurrent pushes: before each iteration of the loop the
entries of the next batch of `ps` are `TryPush`ed (they arrive between
the loop's critical sections).  Each iteration delivers the head of the
list to the callback and pops it; observing an empty list sets `done` and
stops.  Returns the delivered entries in delivery order and the final
queue state.  The fuel only bounds the number of iterations; `DoRun`
below supplies enough fuel for the loop to reach its exit condition. -/
def PendingEvents.DoLoop : Nat → PendingEvents → List (List BlockEvents) →
    List BlockEvents × PendingEvents
  | 0, pe, _ => ([], pe)
  | fuel + 1, pe, ps =>
    let pe1 := pe.pushBatch (ps.headD [])
    match pe1.list with
    | [] => ([], { pe1 with done := true })
    | e :: rest =>
      let r := PendingEvents.DoLoop fuel { pe1 with list := rest } ps.tail
      (e :: r.1, r.2)

/-- Fuel needed by `DoLoop`: one iteration per entry ever present plus one
per scheduled batch plus the final empty-check iteration. -/
def PendingEvents.doFuel (pe : PendingEvents) (ps : List (List BlockEvents)) : Nat :=
  pe.list.length + (ps.map List.length).sum + ps.length + 1

/-- Mirrors `pendingEvents.Do` against the push schedule `ps`. -/
def PendingEvents.DoRun (pe : PendingEvents) (ps : List (List BlockEvents)) :
    List BlockEvents × PendingEvents :=
  PendingEvents.DoLoop (pe.doFuel ps) pe ps

/-- Schedules of concurrent pushes that all arrive while `Do` is still
draining: after each batch is appended the queue is observed non-empty,
so the loop delivers one more entry and is still running when the next
batch arrives.  (A push that instead races after the `done` flip is
rejected by `TryPush` and belongs to the direct-delivery phase.) -/
def Sustains : Nat → List (List BlockEvents) → Prop
  | _, [] => True
  | n, b :: ps => 0 < n + b.length ∧ Sustains (n + b.length - 1) ps

instance instSustainsDec : ∀ n ps, Decidable (Sustains n ps)
  | _, [] => .isTrue trivial
  | n, b :: ps =>
    haveI : Decidable (Sustains (n + b.length - 1) ps) := instSustainsDec _ ps
    inferInstanceAs (Decidable (0 < n + b.length ∧ Sustains (n + b.length - 1) ps))

/-- Mirrors the id-allocation scan of `RegisterEventsListener`
(lines 233-242): starting at `i`, return the first id not occupied;
report exhaustion (`none`, the "too many events listeners" error) when
the scan reaches `maxInt` with every id occupied.  Fuel dominates the
trip count (`allocListenerId` passes `maxInt + 1`). -/
def scanListenerId (occupied : Nat → Bool) (maxInt : Nat) :
    Nat → Nat → Option Nat
  | 0, _ => none
  | fuel + 1, i =>
    if i ≤ maxInt then
      if occupied i = false then some i
      else if i = maxInt then none
      else scanListenerId occupied maxInt fuel (i + 1)
    else none

/-- Id allocation of `RegisterEventsListener`, scanning from 0 over the
id space `0 .. maxInt` (`math.MaxInt`). -/
def allocListenerId (occupied : Nat → Bool) (maxInt : Nat) : Option Nat :=
  scanListenerId occupied maxInt (maxInt + 1) 0

/-! ### The subscription lifecycle (`StartEventsListening`, lines 180-227) -/

/-- Engine fields of `Client` relevant to the lifecycle.  Handle identity
(which closure / which channel a call returns) is modelled by numbering
successful starts: `subsOpened` counts raw subscriptions ever opened, and
a successful start stores fresh handles carrying that number. -/
structure EngineState where
  isListening : Bool
  cancelListening : Option Nat
  errsListening : Option Nat
  subsOpened : Nat
deriving DecidableEq, Repr

/-- Environment consumed by one `StartEventsListening` call. -/
structure StartEnv where
  getMetadataLatest : Except String Unit
  createStorageKey : Except String StorageKey
  subscribeStorageRaw : Except String Unit

/-- Mirrors `StartEventsListening`: the entry `CompareAndSwapUint32
(&c.isListening, 0, 1)` is the atomic test-and-set; when it fails the
existing handles are returned with a nil error.  On the winning path the
metadata fetch, storage-key creation and raw subscription each may fail;
the Go code returns such an error without resetting `isListening`, which
this definition reproduces faithfully. -/
def StartEventsListening (env : StartEnv) (s : EngineState) :
    EngineState × (Option Nat × Option Nat × Option String) :=
  if s.isListening then
    (s, (s.cancelListening, s.errsListening, none))
  else
    let s1 : EngineState := { s with isListening := true }
    match env.getMetadataLatest with
    | .error e => (s1, (none, none, some e))
    | .ok _ =>
      match env.createStorageKey with
      | .error e => (s1, (none, none, some e))
      | .ok _ =>
        match env.subscribeStorageRaw with
        | .error e => (s1, (none, none, some e))
        | .ok _ =>
          let handle := s.subsOpened + 1
          ({ isListening := true, cancelListening := some handle,
             errsListening := some handle, subsOpened := s.subsOpened + 1 },
           (some handle, some handle, none))

/-- Sequence of `StartEventsListening` calls, returning the final state
and each call's result triple. -/
def startCalls : List StartEnv → EngineState →
    EngineState × List (Option Nat × Option Nat × Option String)
  | [], s => (s, [])
  | env :: rest, s =>
    let r := StartEventsListening env s
    let r2 := startCalls rest r.1
    (r2.1, r.2 :: r2.2)

/-! ### The two cancel closures (listener cancel, lines 330-338; engine
cancel, lines 217-224).  `sync.Once` is the `onceFired` latch; calling a
closure is a total function on the state, so it can neither return an
error nor panic in the model (the Go bodies contain no panicking
operation either). -/

/-- State touched by one listener's cancel closure: the `sync.Once`, the
captured `cancelled` flag, and the id set of `c.eventsListeners`. -/
structure ListenerCancelState where
  onceFired : Bool
  cancelled : Bool
  listeners : Finset Nat
deriving DecidableEq

/-- Mirrors the listener `cancel` closure: under `once.Do`, take the
registry mutex, set `cancelled`, and delete the listener's id. -/
def listenerCancel (idx : Nat) (s : ListenerCancelState) : ListenerCancelState :=
  if s.onceFired then s
  else { onceFired := true, cancelled := true, listeners := s.listeners.erase idx }

/-- State touched by `c.cancelListening`: the `sync.Once`, whether the
dispatcher loop received on `done`, whether `sub.Unsubscribe` ran, and
the `isListening` flag. -/
structure EngineCancelState where
  onceFired : Bool
  dispatcherStopped : Bool
  unsubscribed : Bool
  isListening : Bool
deriving DecidableEq, Repr

/-- Mirrors the `c.cancelListening` closure: under `once.Do`, signal the
dispatcher loop, unsubscribe from the raw feed, and clear `isListening`. -/
def cancelListening (s : EngineCancelState) : EngineCancelState :=
  if s.onceFired then s
  else { onceFired := true, dispatcherStopped := true, unsubscribed := true,
         isListening := false }

/-! ### The RPC environment and the live dispatch path -/

/-- Mirrors `types.KeyValueOption`: one storage change of a change set. -/
structure Change where
  storageKey : StorageKey
  hasStorageData : Bool
  storageData : RawData
deriving DecidableEq, Repr

/-- Mirrors `types.StorageChangeSet`: a block hash plus its changes. -/
structure ChangeSet where
  block : Hash
  changes : List Change
deriving DecidableEq, Repr

/-- The RPC collaborator used by the backfill goroutine and the live
dispatch path: metadata retrieval, storage-key creation, block-hash and
header lookup, the storage query, and the SCALE event decoder (whose
metadata argument is folded into the function). -/
structure ChainEnv where
  getMetadataLatest : Except String Unit
  createStorageKey : Except String StorageKey
  getBlockHash : Nat → Except String Hash
  queryStorageAt : Hash → Except String (List ChangeSet)
  getHeader : Hash → Except String BlockNumber
  decodeEventRecords : RawData → Except String Events

/-- Change loop of `processSystemEventsStorageChanges` (lines 355-372):
skip changes whose key differs or that carry no data; report a decoder
error and continue; otherwise fan the decoded batch out to every
registered listener (the registry snapshot `listeners`).  Returns the
errors sent to `errsListening` and the (listener id, delivery) pairs, in
program order. -/
def dispatchChanges (env : ChainEnv) (key : StorageKey)
    (headerNumber : BlockNumber) (blockHash : Hash) (listeners : List Nat) :
    List Change → List String × List (Nat × BlockEvents)
  | [] => ([], [])
  | c :: rest =>
    if c.storageKey = key ∧ c.hasStorageData = true then
      match env.decodeEventRecords c.storageData with
      | .error e =>
        let r := dispatchChanges env key headerNumber blockHash listeners rest
        (("events decoder: " ++ e) :: r.1, r.2)
      | .ok events =>
        let r := dispatchChanges env key headerNumber blockHash listeners rest
        (r.1, listeners.map (fun id => (id, ⟨events, blockHash, headerNumber⟩)) ++ r.2)
    else dispatchChanges env key headerNumber blockHash listeners rest

/-- Mirrors `processSystemEventsStorageChanges` (lines 343-373): resolve
the header for the notification's block hash — on failure report the
error and skip the whole notification — then run the change loop. -/
def processSystemEventsStorageChanges (env : ChainEnv) (key : StorageKey)
    (listeners : List Nat) (blockHash : Hash) (changes : List Change) :
    List String × List (Nat × BlockEvents) :=
  match env.getHeader blockHash with
  | .error e => (["get header: " ++ e], [])
  | .ok headerNumber =>
    dispatchChanges env key headerNumber blockHash listeners changes

/-- Dispatcher loop (lines 201-215): one `processSystemEventsStorageChanges`
call per notification received on the raw subscription, accumulating
errors and deliveries in arrival order. -/
def dispatchLoop (env : ChainEnv) (key : StorageKey) (listeners : List Nat) :
    List (Hash × List Change) → List String × List (Nat × BlockEvents)
  | [] => ([], [])
  | (blockHash, changes) :: rest =>
    let r := processSystemEventsStorageChanges env key listeners blockHash changes
    let r2 := dispatchLoop env key listeners rest
    (r.1 ++ r2.1, r.2 ++ r2.2)

/-! ### The backfill goroutine of `RegisterEventsListener` (lines 266-328) -/

/-- Observable steps of the backfill goroutine, in program order: the
three historical RPC queries, each read of the `cancelled` flag with the
value observed, and each direct callback invocation. -/
inductive BfOp
  | getBlockHash (height : Nat)
  | queryStorage (block : Hash)
  | fetchHeader (block : Hash)
  | checkCancel (observed : Bool)
  | deliver (number : BlockNumber)
deriving DecidableEq, Repr

/-- Status of the backfill goroutine after a (partial) run: still inside
the loop carrying the next cancelled-check index, returned after an RPC
error, or returned after observing `cancelled`. -/
inductive BfOutcome
  | ok (checkIdx : Nat)
  | aborted
  | cancelledStop
deriving DecidableEq, Repr

/-- Accumulated output of (part of) the backfill goroutine: its step
trace, the errors sent to `errsListening`, the entries delivered directly
to the listener's callback, and the loop status. -/
structure BfOut where
  trace : List BfOp
  errs : List String
  delivered : List BlockEvents
  outcome : BfOutcome
deriving DecidableEq, Repr

/-- Innermost backfill loop over one set's changes (lines 306-323): skip
non-matching or dataless changes; on a decoder error report it and
continue with the next change; after a successful decode read `cancelled`
— modelled by its check index `ck` against `cancelAt`, the index of the
first read that observes the (monotone) flag set — returning at once if
it is set, and otherwise invoke the callback with the decoded batch, the
set's header number and the set's block hash. -/
def backfillChanges (env : ChainEnv) (key : StorageKey) (cancelAt : Nat)
    (headerNumber : BlockNumber) (blockHash : Hash) :
    List Change → Nat → BfOut
  | [], ck => ⟨[], [], [], .ok ck⟩
  | c :: rest, ck =>
    if c.storageKey = key ∧ c.hasStorageData = true then
      match env.decodeEventRecords c.storageData with
      | .error e =>
        let r := backfillChanges env key cancelAt headerNumber blockHash rest ck
        ⟨r.trace, ("events decoder: " ++ e) :: r.errs, r.delivered, r.outcome⟩
      | .ok events =>
        if cancelAt ≤ ck then
          ⟨[.checkCancel true], [], [], .cancelledStop⟩
        else
          let r := backfillChanges env key cancelAt headerNumber blockHash rest (ck + 1)
          ⟨.checkCancel false :: .deliver headerNumber :: r.trace, r.errs,
            ⟨events, blockHash, headerNumber⟩ :: r.delivered, r.outcome⟩
    else backfillChanges env key cancelAt headerNumber blockHash rest ck

/-- Backfill loop over the change sets returned for one height
(lines 299-324): resolve each set's header — on failure report the error
and return, aborting the backfill — then process its changes, stopping if
that run aborted or observed `cancelled`. -/
def backfillSets (env : ChainEnv) (key : StorageKey) (cancelAt : Nat) :
    List ChangeSet → Nat → BfOut
  | [], ck => ⟨[], [], [], .ok ck⟩
  | set :: rest, ck =>
    match env.getHeader set.block with
    | .error e =>
      ⟨[.fetchHeader set.block], ["get header: " ++ e], [], .aborted⟩
    | .ok headerNumber =>
      let r := backfillChanges env key cancelAt headerNumber set.block set.changes ck
      match r.outcome with
      | .ok ck' =>
        let r2 := backfillSets env key cancelAt rest ck'
        ⟨.fetchHeader set.block :: (r.trace ++ r2.trace), r.errs ++ r2.errs,
          r.delivered ++ r2.delivered, r2.outcome⟩
      | _ =>
        ⟨.fetchHeader set.block :: r.trace, r.errs, r.delivered, r.outcome⟩

/-- Height loop of the backfill goroutine (lines 286-325): for each
height below `stop` (`subscriptionStartBlock`), fetch the block hash and
query the events storage at it — each failure is reported and aborts the
backfill — then process the returned change sets.  Fuel dominates the
trip count (`backfillRun` passes `stop - current`). -/
def backfillLoop (env : ChainEnv) (key : StorageKey) (cancelAt : Nat)
    (stop : Nat) : Nat → Nat → Nat → BfOut
  | 0, _, ck => ⟨[], [], [], .ok ck⟩
  | fuel + 1, current, ck =>
    if current < stop then
      match env.getBlockHash current with
      | .error e =>
        ⟨[.getBlockHash current], ["get block hash: " ++ e], [], .aborted⟩
      | .ok bHash =>
        match env.queryStorageAt bHash with
        | .error e =>
          ⟨[.getBlockHash current, .queryStorage bHash],
            ["query storage: " ++ e], [], .aborted⟩
        | .ok sets =>
          let r := backfillSets env key cancelAt sets ck
          match r.outcome with
          | .ok ck' =>
            let r2 := backfillLoop env key cancelAt stop fuel (current + 1) ck'
            ⟨.getBlockHash current :: .queryStorage bHash :: (r.trace ++ r2.trace),
              r.errs ++ r2.errs, r.delivered ++ r2.delivered, r2.outcome⟩
          | _ =>
            ⟨.getBlockHash current :: .queryStorage bHash :: r.trace,
              r.errs, r.delivered, r.outcome⟩
    else ⟨[], [], [], .ok ck⟩

/-- The height loop run from `begin` with sufficient fuel. -/
def backfillRun (env : ChainEnv) (key : StorageKey) (cancelAt : Nat)
    (begin stop : Nat) : BfOut :=
  backfillLoop env key cancelAt stop (stop - begin) begin 0

/-- Result of the whole backfill goroutine body. -/
structure GoResult where
  bf : BfOut
  skippedReplay : Bool
  drained : Bool
deriving DecidableEq, Repr

/-- Mirrors the goroutine body of `RegisterEventsListener` after the
`subscriptionStarted` signal fired: skip replay (returning at once) when
`begin` is at or past `subscriptionStartBlock`; resolve metadata and the
storage key, each failure being reported and ending the goroutine; run
the height loop; and only when the loop runs to completion reach
`pendingEvents.Do` (recorded as `drained`) — an abort, an observed
cancellation, and the skip path all return before the drain. -/
def registerGoroutine (env : ChainEnv) (begin subscriptionStartBlock : Nat)
    (cancelAt : Nat) : GoResult :=
  if subscriptionStartBlock ≤ begin then
    ⟨⟨[], [], [], .ok 0⟩, true, false⟩
  else
    match env.getMetadataLatest with
    | .error e => ⟨⟨[], ["get metadata: " ++ e], [], .aborted⟩, false, false⟩
    | .ok _ =>
      match env.createStorageKey with
      | .error e => ⟨⟨[], ["create storage key: " ++ e], [], .aborted⟩, false, false⟩
      | .ok key =>
        let r := backfillRun env key cancelAt begin subscriptionStartBlock
        match r.outcome with
        | .ok _ => ⟨r, false, true⟩
        | _ => ⟨r, false, false⟩

/-! ### The wrapped callback and the full per-listener run -/

/-- Mirrors `callbackWrapper` (lines 248-258) acting on one dispatcher
notification: the `CompareAndSwapUint32(&subscriptionStartBlock, 0, n)`
capture of the live-start height, then `TryPush` into the pending queue,
falling through to a direct callback invocation when the push is
rejected.  Returns the new (startBlock, queue) state and the direct
delivery, if any. -/
def callbackWrapper (startBlock : Nat) (q : PendingEvents) (n : BlockEvents) :
    (Nat × PendingEvents) × Option BlockEvents :=
  let startBlock' := if startBlock = 0 then n.number else startBlock
  let r := q.TryPush n.events n.hash n.number
  if r.1 then ((startBlock', r.2), none) else ((startBlock', r.2), some n)

/-- Folds `callbackWrapper` over a stream of notifications, collecting
the direct deliveries in order. -/
def wrapperPhase (startBlock : Nat) (q : PendingEvents) :
    List BlockEvents → (Nat × PendingEvents) × List BlockEvents
  | [] => ((startBlock, q), [])
  | n :: rest =>
    let s := callbackWrapper startBlock q n
    let r := wrapperPhase s.1.1 s.1.2 rest
    (r.1, s.2.toList ++ r.2)

/-- Outcome of one registered listener's whole run: the entries handed to
its real callback in invocation order, the errors its backfill sent, the
final queue state, the captured live-start height, and whether the queue
drain was reached. -/
structure ListenerRun where
  delivered : List BlockEvents
  errs : List String
  finalQueue : PendingEvents
  subscriptionStartBlock : Nat
  drained : Bool
deriving DecidableEq, Repr

/-- One listener's life under `RegisterEventsListener`, for a given
schedule of the engine's tasks.  `pre`, `midSchedule` and `post` list the
invocations of this listener's wrapped callback in EXECUTION order: the
dispatcher spawns one fire-and-forget goroutine per (notification,
listener) pair, so the order in which the wrapper actually runs is a
scheduler-chosen permutation of the notifications' arrival order — in
particular it need not be increasing by height, and the first wrapper
invocation to run (not necessarily the lowest notification) fires the
`subscriptionStarted` signal and captures the live-start height.  `pre`
holds the invocations that run before the backfill goroutine ends,
`midSchedule` the batches racing with the `pendingEvents.Do` drain, and
`post` the invocations after the goroutine ended.  When the goroutine
never reaches the drain, the mid and post notifications simply keep
feeding the still-open queue. -/
def listenerRun (env : ChainEnv) (begin : Nat) (cancelAt : Nat)
    (pre : List BlockEvents) (midSchedule : List (List BlockEvents))
    (post : List BlockEvents) : ListenerRun :=
  let p1 := wrapperPhase 0 ⟨[], false⟩ pre
  let sb := p1.1.1
  let q1 := p1.1.2
  let g := registerGoroutine env begin sb cancelAt
  if g.drained then
    let d := q1.DoRun midSchedule
    let p4 := wrapperPhase sb d.2 post
    ⟨g.bf.delivered ++ p1.2 ++ d.1 ++ p4.2, g.bf.errs, p4.1.2, sb, true⟩
  else
    let p4 := wrapperPhase sb q1 (midSchedule.flatten ++ post)
    ⟨g.bf.delivered ++ p1.2 ++ p4.2, g.bf.errs, p4.1.2, sb, false⟩

/-! ## Theorems -/

/-! ### Id allocation (claim C9) -/

theorem scanListenerId_spec (occupied : Nat → Bool) (maxInt : Nat) :
    ∀ fuel i, maxInt + 1 ≤ fuel + i →
      (scanListenerId occupied maxInt fuel i = none ↔
        ∀ j, i ≤ j → j ≤ maxInt → occupied j = true) ∧
      (∀ k, scanListenerId occupied maxInt fuel i = some k →
        occupied k = false ∧ i ≤ k ∧ ∀ j, i ≤ j → j < k → occupied j = true) := by
  intro fuel
  induction fuel with
  | zero =>
    intro i hfi
    refine ⟨⟨fun _ j hij hjm => ?_, fun _ => rfl⟩, fun k hk => by simp [scanListenerId] at hk⟩
    exact absurd hjm (by omega)
  | succ fuel ih =>
    intro i hfi
    by_cases h1 : i ≤ maxInt
    · by_cases hocc : occupied i = false
      · refine ⟨⟨fun hnone => ?_, fun hall => ?_⟩, fun k hk => ?_⟩
        · simp [scanListenerId, h1, hocc] at hnone
        · exact absurd (hall i le_rfl h1) (by simp [hocc])
        · simp only [scanListenerId, if_pos h1, if_pos hocc] at hk
          obtain rfl : i = k := by simpa using hk
          exact ⟨hocc, le_rfl, fun j hij hji => by omega⟩
      · rw [Bool.not_eq_false] at hocc
        by_cases h2 : i = maxInt
        · subst h2
          refine ⟨⟨fun _ j hij hjm => ?_, fun _ => by simp [scanListenerId, h1, hocc]⟩,
            fun k hk => ?_⟩
          · obtain rfl : j = i := le_antisymm hjm hij
            exact hocc
          · simp [scanListenerId, h1, hocc] at hk
        · have hrec : scanListenerId occupied maxInt (fuel + 1) i =
              scanListenerId occupied maxInt fuel (i + 1) := by
            simp [scanListenerId, h1, hocc, h2]
          have hih := ih (i + 1) (by omega)
          rw [hrec]
          refine ⟨⟨fun hnone j hij hjm => ?_, fun hall => hih.1.mpr ?_⟩, fun k hk => ?_⟩
          · rcases Nat.eq_or_lt_of_le hij with rfl | hlt
            · exact hocc
            · exact hih.1.mp hnone j hlt hjm
          · exact fun j hij hjm => hall j (by omega) hjm
          · obtain ⟨hk1, hk2, hk3⟩ := hih.2 k hk
            refine ⟨hk1, by omega, fun j hij hjk => ?_⟩
            rcases Nat.eq_or_lt_of_le hij with rfl | hlt
            · exact hocc
            · exact hk3 j hlt hjk
    · refine ⟨⟨fun _ j hij hjm => ?_, fun _ => by simp [scanListenerId, h1]⟩,
        fun k hk => by simp [scanListenerId, h1] at hk⟩
      exact absurd hjm (by omega)

/-- C9: `RegisterEventsListener` assigns the lowest non-negative id not
currently occupied, and its scan reports the "too many events listeners"
capacity error exactly when every id of the id space `0 .. math.MaxInt`
is occupied. -/
theorem registerEventsListener_allocates_lowest_free_id
    (occupied : Nat → Bool) (maxInt : Nat) :
    (allocListenerId occupied maxInt = none ↔ ∀ j ≤ maxInt, occupied j = true) ∧
    (∀ k, allocListenerId occupied maxInt = some k →
      occupied k = false ∧ ∀ j < k, occupied j = true) := by
  have h := scanListenerId_spec occupied maxInt (maxInt + 1) 0 (by omega)
  refine ⟨⟨fun hn j hj => h.1.mp hn j (Nat.zero_le j) hj, fun ha => h.1.mpr ?_⟩,
    fun k hk => ?_⟩
  · exact fun j _ hjm => ha j hjm
  · obtain ⟨h1, _, h3⟩ := h.2 k hk
    exact ⟨h1, fun j hj => h3 j (Nat.zero_le j) hj⟩

/-- Registry with ids 0 and 1 occupied, used as the witness input. -/
def occupiedW : Nat → Bool := fun n => decide (n < 2)

theorem registerEventsListener_allocates_lowest_free_id_witness :
    occupiedW 2 = false ∧ ∀ j < 2, occupiedW j = true :=
  (registerEventsListener_allocates_lowest_free_id occupiedW 5).2 2 (by decide)

/-! ### Idempotent cancellation (claim C8) -/

theorem listenerCancel_idem (idx : Nat) (s : ListenerCancelState) :
    listenerCancel idx (listenerCancel idx s) = listenerCancel idx s := by
  by_cases h : s.onceFired = true
  · simp [listenerCancel, h]
  · simp only [Bool.not_eq_true] at h
    simp [listenerCancel, h]

theorem cancelListening_idem (t : EngineCancelState) :
    cancelListening (cancelListening t) = cancelListening t := by
  by_cases h : t.onceFired = true
  · simp [cancelListening, h]
  · simp only [Bool.not_eq_true] at h
    simp [cancelListening, h]

/-- C8: both the listener's cancel closure and the engine's
`cancelListening` are one-shot latches: any positive number of calls has
the effect of a single call (both closures being total state functions,
no call can panic or yield an error in the model); one call from the
unfired state marks the listener `cancelled` and removes its id from the
fan-out registry, and one engine cancel stops the dispatcher,
unsubscribes, and clears `isListening`. -/
theorem cancel_functions_idempotent :
    (∀ (idx n : Nat) (s : ListenerCancelState), 1 ≤ n →
      (listenerCancel idx)^[n] s = listenerCancel idx s) ∧
    (∀ (n : Nat) (t : EngineCancelState), 1 ≤ n →
      cancelListening^[n] t = cancelListening t) ∧
    (∀ (idx : Nat) (s : ListenerCancelState), s.onceFired = false →
      (listenerCancel idx s).cancelled = true ∧
      idx ∉ (listenerCancel idx s).listeners) ∧
    (∀ t : EngineCancelState, t.onceFired = false →
      (cancelListening t).dispatcherStopped = true ∧
      (cancelListening t).unsubscribed = true ∧
      (cancelListening t).isListening = false) := by
  refine ⟨fun idx n s hn => ?_, fun n t hn => ?_, fun idx s h => ?_, fun t h => ?_⟩
  · induction n with
    | zero => omega
    | succ n ihn =>
      rcases Nat.eq_or_lt_of_le hn with h1 | h1
      · simp [← h1]
      · rw [Function.iterate_succ_apply', ihn (by omega), listenerCancel_idem]
  · induction n with
    | zero => omega
    | succ n ihn =>
      rcases Nat.eq_or_lt_of_le hn with h1 | h1
      · simp [← h1]
      · rw [Function.iterate_succ_apply', ihn (by omega), cancelListening_idem]
  · simp [listenerCancel, h, Finset.not_mem_erase]
  · simp [cancelListening, h]

theorem cancel_functions_idempotent_witness :
    (listenerCancel 0)^[3] ⟨false, false, {0, 1}⟩ =
      listenerCancel 0 ⟨false, false, {0, 1}⟩ ∧
    (listenerCancel 0 ⟨false, false, {0, 1}⟩).cancelled = true ∧
    0 ∉ (listenerCancel 0 ⟨false, false, {0, 1}⟩).listeners ∧
    cancelListening^[2] ⟨false, false, false, true⟩ =
      cancelListening ⟨false, false, false, true⟩ :=
  ⟨cancel_functions_idempotent.1 0 3 _ (by omega),
    (cancel_functions_idempotent.2.2.1 0 _ rfl).1,
    (cancel_functions_idempotent.2.2.1 0 _ rfl).2,
    cancel_functions_idempotent.2.1 2 _ (by omega)⟩

/-! ### Startup failure leaves the engine marked as listening (claim C3) -/

/-- Environment whose metadata retrieval fails. -/
def startEnvBad : StartEnv := ⟨.error "metadata down", .ok 0, .ok ()⟩

/-- Environment for which the whole startup succeeds. -/
def startEnvGood : StartEnv := ⟨.ok (), .ok 0, .ok ()⟩

/-- C3 fails on the code: the entry compare-and-swap sets `isListening`
and no failure path resets it, so after a failed first call the engine is
NOT left in the not-started state — a second call takes the
already-listening branch and returns the stale nil handles with a nil
error instead of retrying the startup (`subsOpened` stays 0: no
subscription is ever opened). -/
theorem startEventsListening_failed_start_is_sticky :
    StartEventsListening startEnvBad ⟨false, none, none, 0⟩ =
      (⟨true, none, none, 0⟩, (none, none, some "metadata down")) ∧
    StartEventsListening startEnvGood ⟨true, none, none, 0⟩ =
      (⟨true, none, none, 0⟩, (none, none, none)) :=
  ⟨rfl, rfl⟩

/-! ### Idempotent successful startup (claim C5) -/

theorem startCalls_already_listening (s : EngineState) (h : s.isListening = true) :
    ∀ envs, startCalls envs s =
      (s, envs.map fun _ => (s.cancelListening, s.errsListening, none)) := by
  intro envs
  induction envs with
  | nil => rfl
  | cons env rest ihr =>
    simp only [startCalls, StartEventsListening, h, if_pos, List.map_cons, ihr]

/-- C5: once a first `StartEventsListening` call succeeds, every later
call — in the model, any sequence of calls against arbitrary
environments, each call atomic at the compare-and-swap — returns the
same cancel handle and the same error channel as the first call with no
error, leaves the state untouched, and opens no further subscription
(`subsOpened` stays at the one opened by the first call). -/
theorem startEventsListening_idempotent (env : StartEnv) (s0 : EngineState)
    (h0 : s0.isListening = false)
    (hm : env.getMetadataLatest = .ok ())
    (hk : ∃ k, env.createStorageKey = .ok k)
    (hs : env.subscribeStorageRaw = .ok ()) :
    (StartEventsListening env s0).2.2.2 = none ∧
    (StartEventsListening env s0).1.subsOpened = s0.subsOpened + 1 ∧
    ∀ envs, startCalls envs (StartEventsListening env s0).1 =
      ((StartEventsListening env s0).1,
        envs.map fun _ => ((StartEventsListening env s0).2.1,
          (StartEventsListening env s0).2.2.1, none)) := by
  obtain ⟨k, hk⟩ := hk
  have hrun : StartEventsListening env s0 =
      ({ isListening := true, cancelListening := some (s0.subsOpened + 1),
         errsListening := some (s0.subsOpened + 1), subsOpened := s0.subsOpened + 1 },
       (some (s0.subsOpened + 1), some (s0.subsOpened + 1), none)) := by
    simp [StartEventsListening, h0, hm, hk, hs]
  rw [hrun]
  exact ⟨rfl, rfl, fun envs => startCalls_already_listening _ rfl envs⟩

theorem startEventsListening_idempotent_witness :
    (StartEventsListening startEnvGood ⟨false, none, none, 0⟩).2.2.2 = none ∧
    (StartEventsListening startEnvGood ⟨false, none, none, 0⟩).1.subsOpened = 0 + 1 ∧
    startCalls [startEnvGood, startEnvBad]
        (StartEventsListening startEnvGood ⟨false, none, none, 0⟩).1 =
      ((StartEventsListening startEnvGood ⟨false, none, none, 0⟩).1,
        [((StartEventsListening startEnvGood ⟨false, none, none, 0⟩).2.1,
           (StartEventsListening startEnvGood ⟨false, none, none, 0⟩).2.2.1, none),
         ((StartEventsListening startEnvGood ⟨false, none, none, 0⟩).2.1,
           (StartEventsListening startEnvGood ⟨false, none, none, 0⟩).2.2.1, none)]) := by
  have h := startEventsListening_idempotent startEnvGood ⟨false, none, none, 0⟩ rfl rfl
    ⟨0, rfl⟩ rfl
  exact ⟨h.1, h.2.1, h.2.2 [startEnvGood, startEnvBad]⟩

/-! ### The pending-events queue (claim C10) -/

theorem PendingEvents.tryPush_open (pe : PendingEvents) (h : pe.done = false)
    (ev : Events) (hs : Hash) (n : BlockNumber) :
    pe.TryPush ev hs n = (true, ⟨pe.list ++ [⟨ev, hs, n⟩], false⟩) := by
  simp [PendingEvents.TryPush, h]

theorem PendingEvents.tryPush_closed (pe : PendingEvents) (h : pe.done = true)
    (ev : Events) (hs : Hash) (n : BlockNumber) :
    pe.TryPush ev hs n = (false, pe) := by
  simp [PendingEvents.TryPush, h]

theorem PendingEvents.pushBatch_open (l b : List BlockEvents) :
    PendingEvents.pushBatch ⟨l, false⟩ b = ⟨l ++ b, false⟩ := by
  induction b generalizing l with
  | nil => simp [PendingEvents.pushBatch]
  | cons e b ihb =>
    have hstep : (PendingEvents.TryPush ⟨l, false⟩ e.events e.hash e.number).2 =
        ⟨l ++ [e], false⟩ := by
      simp [PendingEvents.TryPush]
    calc PendingEvents.pushBatch ⟨l, false⟩ (e :: b)
        = PendingEvents.pushBatch ⟨l ++ [e], false⟩ b := by
          simp only [PendingEvents.pushBatch, List.foldl_cons, hstep]
      _ = ⟨(l ++ [e]) ++ b, false⟩ := ihb (l ++ [e])
      _ = ⟨l ++ e :: b, false⟩ := by simp

theorem PendingEvents.pushBatch_list_length (pe : PendingEvents)
    (b : List BlockEvents) :
    (pe.pushBatch b).list.length ≤ pe.list.length + b.length := by
  induction b generalizing pe with
  | nil => simp [PendingEvents.pushBatch]
  | cons e b ihb =>
    have hstep : ((pe.TryPush e.events e.hash e.number).2).list.length ≤
        pe.list.length + 1 := by
      by_cases h : pe.done = false
      · simp [PendingEvents.TryPush, h]
      · simp only [Bool.not_eq_false] at h
        simp [PendingEvents.TryPush, h]
    have := ihb ((pe.TryPush e.events e.hash e.number).2)
    have hfold : pe.pushBatch (e :: b) = ((pe.TryPush e.events e.hash e.number).2).pushBatch b := rfl
    rw [hfold]
    simp only [List.length_cons]
    omega

theorem PendingEvents.doLoop_drain :
    ∀ fuel (l : List BlockEvents) ps, Sustains l.length ps →
      l.length + (ps.map List.length).sum + ps.length < fuel →
      PendingEvents.DoLoop fuel ⟨l, false⟩ ps = (l ++ ps.flatten, ⟨[], true⟩) := by
  intro fuel
  induction fuel with
  | zero => intro l ps _ hm; omega
  | succ fuel ihf =>
    intro l ps hsus hm
    cases ps with
    | nil =>
      cases l with
      | nil => simp [PendingEvents.DoLoop, PendingEvents.pushBatch]
      | cons e rest =>
        have hrec := ihf rest [] trivial (by simp at hm ⊢; omega)
        simp only [PendingEvents.DoLoop, List.headD_nil, List.tail_nil]
        rw [show PendingEvents.pushBatch ⟨e :: rest, false⟩ [] = ⟨e :: rest, false⟩ from rfl]
        simp only [hrec]
        simp
    | cons b ps' =>
      obtain ⟨hpos, hsus'⟩ := hsus
      simp only [PendingEvents.DoLoop, List.headD_cons, List.tail_cons,
        PendingEvents.pushBatch_open]
      have hne : l ++ b ≠ [] := by
        intro hc
        have h0 : l.length + b.length = 0 := by
          have := congrArg List.length hc
          simpa using this
        omega
      obtain ⟨e, rest, hrest⟩ := List.exists_cons_of_ne_nil hne
      have hlen : rest.length = l.length + b.length - 1 := by
        have := congrArg List.length hrest
        simp at this
        omega
      have hrec := ihf rest ps' (by rw [hlen]; exact hsus') (by
        simp only [List.map_cons, List.sum_cons, List.length_cons] at hm
        omega)
      rw [hrest]
      simp only [hrec]
      have : l ++ (b :: ps').flatten = e :: (rest ++ ps'.flatten) := by
        simp only [List.flatten_cons]
        rw [← List.append_assoc, hrest]
        simp
      rw [this]

theorem PendingEvents.doLoop_final :
    ∀ fuel (pe : PendingEvents) ps,
      pe.list.length + (ps.map List.length).sum + ps.length < fuel →
      ((PendingEvents.DoLoop fuel pe ps).2).list = [] ∧
      ((PendingEvents.DoLoop fuel pe ps).2).done = true := by
  intro fuel
  induction fuel with
  | zero => intro pe ps hm; omega
  | succ fuel ihf =>
    intro pe ps hm
    have hlen := PendingEvents.pushBatch_list_length pe (ps.headD [])
    simp only [PendingEvents.DoLoop]
    cases hq : (pe.pushBatch (ps.headD [])).list with
    | nil => simp
    | cons e rest =>
      have hrest : rest.length + (ps.tail.map List.length).sum + ps.tail.length < fuel := by
        have h1 : (pe.pushBatch (ps.headD [])).list.length = rest.length + 1 := by
          rw [hq]; simp
        cases ps with
        | nil => simp_all; omega
        | cons b ps' =>
          simp only [List.headD_cons] at h1 hlen
          simp only [List.map_cons, List.sum_cons, List.length_cons] at hm
          simp only [List.tail_cons]
          omega
      exact ihf _ ps.tail hrest

/-- C10: `TryPush` appends and reports `true` exactly when `done` is
still unset, and leaves the queue untouched reporting `false` once
`done` holds; for any schedule of pushes racing with the drain loop and
accepted by it, `Do` delivers the initial buffer followed by every pushed
entry, in append order, each exactly once (the result list is the exact
concatenation); and whenever `Do` returns, the queue is empty with `done`
set — permanently, by the `TryPush` clauses. -/
theorem pendingEvents_tryPush_do_spec :
    (∀ (pe : PendingEvents) (ev : Events) (hs : Hash) (n : BlockNumber),
      pe.done = false → pe.TryPush ev hs n = (true, ⟨pe.list ++ [⟨ev, hs, n⟩], false⟩)) ∧
    (∀ (pe : PendingEvents) (ev : Events) (hs : Hash) (n : BlockNumber),
      pe.done = true → pe.TryPush ev hs n = (false, pe)) ∧
    (∀ (pe : PendingEvents) ps, pe.done = false → Sustains pe.list.length ps →
      pe.DoRun ps = (pe.list ++ ps.flatten, ⟨[], true⟩)) ∧
    (∀ (pe : PendingEvents) ps,
      ((pe.DoRun ps).2).list = [] ∧ ((pe.DoRun ps).2).done = true) := by
  refine ⟨fun pe ev hs n h => pe.tryPush_open h ev hs n,
    fun pe ev hs n h => pe.tryPush_closed h ev hs n,
    fun pe ps hdone hsus => ?_, fun pe ps => ?_⟩
  · obtain ⟨l, d⟩ := pe
    subst hdone
    exact PendingEvents.doLoop_drain _ l ps hsus (by simp [PendingEvents.doFuel])
  · exact PendingEvents.doLoop_final _ pe ps (by simp [PendingEvents.doFuel])

theorem pendingEvents_tryPush_do_spec_witness :
    PendingEvents.DoRun ⟨[⟨1, 2, 3⟩], false⟩ [[⟨4, 5, 6⟩], [⟨7, 8, 9⟩]] =
      ([⟨1, 2, 3⟩, ⟨4, 5, 6⟩, ⟨7, 8, 9⟩], ⟨[], true⟩) ∧
    PendingEvents.TryPush ⟨[], false⟩ 7 8 9 = (true, ⟨[⟨7, 8, 9⟩], false⟩) ∧
    PendingEvents.TryPush ⟨[], true⟩ 7 8 9 = (false, ⟨[], true⟩) := by
  refine ⟨?_, ?_, ?_⟩
  · have h := pendingEvents_tryPush_do_spec.2.2.1 ⟨[⟨1, 2, 3⟩], false⟩
      [[⟨4, 5, 6⟩], [⟨7, 8, 9⟩]] rfl (by decide)
    simpa using h
  · exact pendingEvents_tryPush_do_spec.1 ⟨[], false⟩ 7 8 9 rfl
  · exact pendingEvents_tryPush_do_spec.2.1 ⟨[], true⟩ 7 8 9 rfl

/-! ### The live dispatch path (claim C6) -/

theorem dispatchChanges_append (env : ChainEnv) (key : StorageKey)
    (hn : BlockNumber) (bh : Hash) (ls : List Nat) (l1 l2 : List Change) :
    dispatchChanges env key hn bh ls (l1 ++ l2) =
      ((dispatchChanges env key hn bh ls l1).1 ++ (dispatchChanges env key hn bh ls l2).1,
       (dispatchChanges env key hn bh ls l1).2 ++ (dispatchChanges env key hn bh ls l2).2) := by
  induction l1 with
  | nil => simp [dispatchChanges]
  | cons c l1 ih =>
    by_cases hc : c.storageKey = key ∧ c.hasStorageData = true
    · cases hd : env.decodeEventRecords c.storageData with
      | error e => simp [dispatchChanges, hc, hd, ih]
      | ok ev => simp [dispatchChanges, hc, hd, ih]
    · simp [dispatchChanges, hc, ih]

theorem dispatchLoop_append (env : ChainEnv) (key : StorageKey) (ls : List Nat)
    (ns1 ns2 : List (Hash × List Change)) :
    dispatchLoop env key ls (ns1 ++ ns2) =
      ((dispatchLoop env key ls ns1).1 ++ (dispatchLoop env key ls ns2).1,
       (dispatchLoop env key ls ns1).2 ++ (dispatchLoop env key ls ns2).2) := by
  induction ns1 with
  | nil => simp [dispatchLoop]
  | cons n ns1 ih =>
    obtain ⟨bh, chs⟩ := n
    simp [dispatchLoop, ih]

/-- C6: on the live path a header-resolution failure yields exactly the
reported error and no delivery for that one notification; a decoder
failure on one change contributes exactly its error while the deliveries
of the surrounding changes are untouched; a successfully decoded change
is fanned out to every registered listener; and the dispatcher loop is a
homomorphism over the notification stream, so notifications after any
failed one are processed exactly as they would be alone. -/
theorem liveDispatch_skips_only_failed_items :
    (∀ (env : ChainEnv) (key : StorageKey) (ls : List Nat) (bh : Hash)
      (chs : List Change) (e : String), env.getHeader bh = .error e →
      processSystemEventsStorageChanges env key ls bh chs = (["get header: " ++ e], [])) ∧
    (∀ (env : ChainEnv) (key : StorageKey) (hn : BlockNumber) (bh : Hash)
      (ls : List Nat) (l1 l2 : List Change) (c : Change) (e : String),
      c.storageKey = key → c.hasStorageData = true →
      env.decodeEventRecords c.storageData = .error e →
      dispatchChanges env key hn bh ls (l1 ++ c :: l2) =
        ((dispatchChanges env key hn bh ls l1).1 ++
          ("events decoder: " ++ e) :: (dispatchChanges env key hn bh ls l2).1,
         (dispatchChanges env key hn bh ls l1).2 ++ (dispatchChanges env key hn bh ls l2).2)) ∧
    (∀ (env : ChainEnv) (key : StorageKey) (hn : BlockNumber) (bh : Hash)
      (ls : List Nat) (c : Change) (ev : Events),
      c.storageKey = key → c.hasStorageData = true →
      env.decodeEventRecords c.storageData = .ok ev →
      dispatchChanges env key hn bh ls [c] = ([], ls.map fun id => (id, ⟨ev, bh, hn⟩))) ∧
    (∀ (env : ChainEnv) (key : StorageKey) (ls : List Nat)
      (ns1 ns2 : List (Hash × List Change)),
      dispatchLoop env key ls (ns1 ++ ns2) =
        ((dispatchLoop env key ls ns1).1 ++ (dispatchLoop env key ls ns2).1,
         (dispatchLoop env key ls ns1).2 ++ (dispatchLoop env key ls ns2).2)) := by
  refine ⟨fun env key ls bh chs e he => ?_, fun env key hn bh ls l1 l2 c e hck hcd hde => ?_,
    fun env key hn bh ls c ev hck hcd hde => ?_, dispatchLoop_append⟩
  · simp [processSystemEventsStorageChanges, he]
  · rw [dispatchChanges_append]
    simp [dispatchChanges, hck, hcd, hde]
  · simp [dispatchChanges, hck, hcd, hde]

/-- Environment whose header lookup fails only for block hash 5, with
storage key 0, one matching change per block carrying the hash as data. -/
def headerFailEnv : ChainEnv :=
  ⟨.ok (), .ok 0, fun h => .ok h,
   fun bh => .ok [⟨bh, [⟨0, true, bh⟩]⟩],
   fun bh => if bh = 5 then .error "header down" else .ok bh,
   fun d => if d = 9 then .error "bad blob" else .ok d⟩

theorem liveDispatch_skips_only_failed_items_witness :
    processSystemEventsStorageChanges headerFailEnv 0 [0, 1] 5 [⟨0, true, 3⟩] =
      (["get header: header down"], []) ∧
    dispatchChanges headerFailEnv 0 7 7 [0, 1] [⟨0, true, 7⟩, ⟨0, true, 9⟩, ⟨0, true, 8⟩] =
      (["events decoder: bad blob"],
       [(0, ⟨7, 7, 7⟩), (1, ⟨7, 7, 7⟩), (0, ⟨8, 7, 7⟩), (1, ⟨8, 7, 7⟩)]) ∧
    dispatchLoop headerFailEnv 0 [0, 1] [(5, [⟨0, true, 3⟩]), (6, [⟨0, true, 6⟩])] =
      (["get header: header down"], [(0, ⟨6, 6, 6⟩), (1, ⟨6, 6, 6⟩)]) := by
  refine ⟨liveDispatch_skips_only_failed_items.1 headerFailEnv 0 [0, 1] 5 [⟨0, true, 3⟩]
      "header down" rfl, ?_, ?_⟩
  · have h := liveDispatch_skips_only_failed_items.2.1 headerFailEnv 0 7 7 [0, 1]
      [⟨0, true, 7⟩] [⟨0, true, 8⟩] ⟨0, true, 9⟩ "bad blob" rfl rfl rfl
    exact h.trans (by decide)
  · have h := liveDispatch_skips_only_failed_items.2.2.2 headerFailEnv 0 [0, 1]
      [(5, [⟨0, true, 3⟩])] [(6, [⟨0, true, 6⟩])]
    exact h.trans (by decide)

/-! ### Cooperative cancellation of the backfill (claim C7) -/

/-- Helper invariant: either the run ended by observing `cancelled`, and
the observation is the final entry of the trace (no later query, check or
delivery), or the run never observed `cancelled`. -/
def CancelLast (r : BfOut) : Prop :=
  (r.outcome = .cancelledStop ∧
    ∃ pre, r.trace = pre ++ [BfOp.checkCancel true] ∧ BfOp.checkCancel true ∉ pre) ∨
  (r.outcome ≠ .cancelledStop ∧ BfOp.checkCancel true ∉ r.trace)

theorem cancelLast_changes (env : ChainEnv) (key : StorageKey) (cancelAt : Nat)
    (hn : BlockNumber) (bh : Hash) :
    ∀ (cs : List Change) (ck : Nat),
      CancelLast (backfillChanges env key cancelAt hn bh cs ck) := by
  intro cs
  induction cs with
  | nil => exact fun ck => Or.inr ⟨by simp [backfillChanges], by simp [backfillChanges]⟩
  | cons c rest ih =>
    intro ck
    by_cases hc : c.storageKey = key ∧ c.hasStorageData = true
    · cases hd : env.decodeEventRecords c.storageData with
      | error e =>
        rcases ih ck with ⟨ho, pre, htr, hpre⟩ | ⟨ho, htr⟩
        · exact Or.inl ⟨by simp [backfillChanges, hc, hd, ho],
            pre, by simp [backfillChanges, hc, hd, htr], hpre⟩
        · exact Or.inr ⟨by simp [backfillChanges, hc, hd]; exact ho,
            by simp [backfillChanges, hc, hd]; exact htr⟩
      | ok ev =>
        by_cases hca : cancelAt ≤ ck
        · exact Or.inl ⟨by simp [backfillChanges, hc, hd, hca],
            [], by simp [backfillChanges, hc, hd, hca], by simp⟩
        · rcases ih (ck + 1) with ⟨ho, pre, htr, hpre⟩ | ⟨ho, htr⟩
          · refine Or.inl ⟨by simp [backfillChanges, hc, hd, hca, ho],
              .checkCancel false :: .deliver hn :: pre, ?_, ?_⟩
            · simp [backfillChanges, hc, hd, hca, htr]
            · simp only [List.mem_cons, not_or]
              exact ⟨by simp, by simp, hpre⟩
          · refine Or.inr ⟨by simp [backfillChanges, hc, hd, hca]; exact ho, ?_⟩
            simp only [backfillChanges, if_pos hc, hd, if_neg hca, List.mem_cons, not_or]
            exact ⟨by simp, by simp, htr⟩
    · have heq : backfillChanges env key cancelAt hn bh (c :: rest) ck =
          backfillChanges env key cancelAt hn bh rest ck := by
        simp [backfillChanges, hc]
      rw [heq]
      exact ih ck

theorem cancelLast_sets (env : ChainEnv) (key : StorageKey) (cancelAt : Nat) :
    ∀ (sets : List ChangeSet) (ck : Nat),
      CancelLast (backfillSets env key cancelAt sets ck) := by
  intro sets
  induction sets with
  | nil => exact fun ck => Or.inr ⟨by simp [backfillSets], by simp [backfillSets]⟩
  | cons set rest ih =>
    intro ck
    cases hh : env.getHeader set.block with
    | error e =>
      exact Or.inr ⟨by simp [backfillSets, hh], by simp [backfillSets, hh]⟩
    | ok hn =>
      rcases hout : (backfillChanges env key cancelAt hn set.block set.changes ck).outcome with
        ck' | _ | _
      · rcases ih ck' with ⟨ho, pre, htr, hpre⟩ | ⟨ho, htr⟩
        · refine Or.inl ⟨by simp [backfillSets, hh, hout, ho],
            .fetchHeader set.block ::
              ((backfillChanges env key cancelAt hn set.block set.changes ck).trace ++ pre),
            ?_, ?_⟩
          · simp [backfillSets, hh, hout, htr]
          · have hnc : BfOp.checkCancel true ∉
                (backfillChanges env key cancelAt hn set.block set.changes ck).trace := by
              rcases cancelLast_changes env key cancelAt hn set.block set.changes ck with
                ⟨hoc, _⟩ | ⟨_, hm⟩
              · rw [hout] at hoc; exact absurd hoc (by simp)
              · exact hm
            simp only [List.mem_cons, List.mem_append, not_or]
            exact ⟨by simp, hnc, hpre⟩
        · refine Or.inr ⟨by simp [backfillSets, hh, hout]; exact ho, ?_⟩
          have hnc : BfOp.checkCancel true ∉
              (backfillChanges env key cancelAt hn set.block set.changes ck).trace := by
            rcases cancelLast_changes env key cancelAt hn set.block set.changes ck with
              ⟨hoc, _⟩ | ⟨_, hm⟩
            · rw [hout] at hoc; exact absurd hoc (by simp)
            · exact hm
          simp only [backfillSets, hh, hout, List.mem_cons, List.mem_append, not_or]
          exact ⟨by simp, hnc, htr⟩
      · rcases cancelLast_changes env key cancelAt hn set.block set.changes ck with
          ⟨hoc, _⟩ | ⟨_, hm⟩
        · rw [hout] at hoc; exact absurd hoc (by simp)
        · exact Or.inr ⟨by simp [backfillSets, hh, hout],
            by simp only [backfillSets, hh, hout, List.mem_cons, not_or]
               exact ⟨by simp, hm⟩⟩
      · rcases cancelLast_changes env key cancelAt hn set.block set.changes ck with
          ⟨hoc, pre, htr, hpre⟩ | ⟨hoc, _⟩
        · exact Or.inl ⟨by simp [backfillSets, hh, hout],
            .fetchHeader set.block :: pre, by simp [backfillSets, hh, hout, htr],
            by simp only [List.mem_cons, not_or]; exact ⟨by simp, hpre⟩⟩
        · exact absurd hout (by simpa using hoc)

theorem cancelLast_loop (env : ChainEnv) (key : StorageKey) (cancelAt : Nat)
    (stop : Nat) :
    ∀ (fuel current ck : Nat),
      CancelLast (backfillLoop env key cancelAt stop fuel current ck) := by
  intro fuel
  induction fuel with
  | zero => exact fun current ck => Or.inr ⟨by simp [backfillLoop], by simp [backfillLoop]⟩
  | succ fuel ih =>
    intro current ck
    by_cases hlt : current < stop
    · cases hbh : env.getBlockHash current with
      | error e =>
        exact Or.inr ⟨by simp [backfillLoop, hlt, hbh], by simp [backfillLoop, hlt, hbh]⟩
      | ok bHash =>
        cases hq : env.queryStorageAt bHash with
        | error e =>
          exact Or.inr ⟨by simp [backfillLoop, hlt, hbh, hq],
            by simp [backfillLoop, hlt, hbh, hq]⟩
        | ok sets =>
          rcases hout : (backfillSets env key cancelAt sets ck).outcome with ck' | _ | _
          · rcases ih (current + 1) ck' with ⟨ho, pre, htr, hpre⟩ | ⟨ho, htr⟩
            · refine Or.inl ⟨by simp [backfillLoop, hlt, hbh, hq, hout, ho],
                .getBlockHash current :: .queryStorage bHash ::
                  ((backfillSets env key cancelAt sets ck).trace ++ pre), ?_, ?_⟩
              · simp [backfillLoop, hlt, hbh, hq, hout, htr]
              · have hnc : BfOp.checkCancel true ∉
                    (backfillSets env key cancelAt sets ck).trace := by
                  rcases cancelLast_sets env key cancelAt sets ck with ⟨hoc, _⟩ | ⟨_, hm⟩
                  · rw [hout] at hoc; exact absurd hoc (by simp)
                  · exact hm
                simp only [List.mem_cons, List.mem_append, not_or]
                exact ⟨by simp, by simp, hnc, hpre⟩
            · refine Or.inr ⟨by simp [backfillLoop, hlt, hbh, hq, hout]; exact ho, ?_⟩
              have hnc : BfOp.checkCancel true ∉
                  (backfillSets env key cancelAt sets ck).trace := by
                rcases cancelLast_sets env key cancelAt sets ck with ⟨hoc, _⟩ | ⟨_, hm⟩
                · rw [hout] at hoc; exact absurd hoc (by simp)
                · exact hm
              simp only [backfillLoop, if_pos hlt, hbh, hq, hout, List.mem_cons,
                List.mem_append, not_or]
              exact ⟨by simp, by simp, hnc, htr⟩
          · rcases cancelLast_sets env key cancelAt sets ck with ⟨hoc, _⟩ | ⟨_, hm⟩
            · rw [hout] at hoc; exact absurd hoc (by simp)
            · exact Or.inr ⟨by simp [backfillLoop, hlt, hbh, hq, hout],
                by simp only [backfillLoop, if_pos hlt, hbh, hq, hout, List.mem_cons, not_or]
                   exact ⟨by simp, by simp, hm⟩⟩
          · rcases cancelLast_sets env key cancelAt sets ck with ⟨hoc, pre, htr, hpre⟩ | ⟨hoc, _⟩
            · exact Or.inl ⟨by simp [backfillLoop, hlt, hbh, hq, hout],
                .getBlockHash current :: .queryStorage bHash :: pre,
                by simp [backfillLoop, hlt, hbh, hq, hout, htr],
                by simp only [List.mem_cons, not_or]; exact ⟨by simp, by simp, hpre⟩⟩
            · exact absurd hout (by simpa using hoc)
    · exact Or.inr ⟨by simp [backfillLoop, hlt], by simp [backfillLoop, hlt]⟩

theorem cancelLast_goroutine (env : ChainEnv) (begin sb cancelAt : Nat) :
    CancelLast (registerGoroutine env begin sb cancelAt).bf ∧
    ((registerGoroutine env begin sb cancelAt).bf.outcome = .cancelledStop →
      (registerGoroutine env begin sb cancelAt).drained = false) := by
  by_cases hskip : sb ≤ begin
  · exact ⟨Or.inr ⟨by simp [registerGoroutine, hskip], by simp [registerGoroutine, hskip]⟩,
      by simp [registerGoroutine, hskip]⟩
  · cases hm : env.getMetadataLatest with
    | error e =>
      exact ⟨Or.inr ⟨by simp [registerGoroutine, hskip, hm],
        by simp [registerGoroutine, hskip, hm]⟩, by simp [registerGoroutine, hskip, hm]⟩
    | ok u =>
      cases hk : env.createStorageKey with
      | error e =>
        exact ⟨Or.inr ⟨by simp [registerGoroutine, hskip, hm, hk],
          by simp [registerGoroutine, hskip, hm, hk]⟩,
          by simp [registerGoroutine, hskip, hm, hk]⟩
      | ok key =>
        have hcl := cancelLast_loop env key cancelAt sb (sb - begin) begin 0
        rcases hout : (backfillLoop env key cancelAt sb (sb - begin) begin 0).outcome with
          ck' | _ | _
        · refine ⟨Or.inr ⟨?_, ?_⟩, ?_⟩
          · simp [registerGoroutine, hskip, hm, hk, backfillRun, hout]
          · rcases hcl with ⟨hoc, _⟩ | ⟨_, hm2⟩
            · rw [hout] at hoc; exact absurd hoc (by simp)
            · simpa [registerGoroutine, hskip, hm, hk, backfillRun, hout] using hm2
          · simp [registerGoroutine, hskip, hm, hk, backfillRun, hout]
        · refine ⟨Or.inr ⟨?_, ?_⟩, ?_⟩
          · simp [registerGoroutine, hskip, hm, hk, backfillRun, hout]
          · rcases hcl with ⟨hoc, _⟩ | ⟨_, hm2⟩
            · rw [hout] at hoc; exact absurd hoc (by simp)
            · simpa [registerGoroutine, hskip, hm, hk, backfillRun, hout] using hm2
          · simp [registerGoroutine, hskip, hm, hk, backfillRun, hout]
        · refine ⟨?_, by simp [registerGoroutine, hskip, hm, hk, backfillRun, hout]⟩
          rcases hcl with ⟨_, pre, htr, hpre⟩ | ⟨hoc, _⟩
          · exact Or.inl ⟨by simp [registerGoroutine, hskip, hm, hk, backfillRun, hout],
              pre, by simpa [registerGoroutine, hskip, hm, hk, backfillRun, hout] using htr,
              hpre⟩
          · exact absurd hout (by simpa using hoc)

/-- C7: whenever a backfill run observed `cancelled` (the read is in the
trace with value `true`), that observation is the final entry of the
whole goroutine trace — so after cancellation is observed, the loop
issues no further block-hash, storage or header query (a query already
recorded before the observation is the one allowed to complete), it
delivers nothing more, and the goroutine returns at once without
reaching the queue drain.  Cancellation is read only at its cooperative
check point between deliveries. -/
theorem backfill_stops_after_observing_cancel (env : ChainEnv)
    (begin sb cancelAt : Nat)
    (hobs : BfOp.checkCancel true ∈ (registerGoroutine env begin sb cancelAt).bf.trace) :
    (registerGoroutine env begin sb cancelAt).bf.outcome = .cancelledStop ∧
    (∃ pre, (registerGoroutine env begin sb cancelAt).bf.trace =
        pre ++ [BfOp.checkCancel true] ∧ BfOp.checkCancel true ∉ pre) ∧
    (registerGoroutine env begin sb cancelAt).drained = false := by
  obtain ⟨hcl, hdr⟩ := cancelLast_goroutine env begin sb cancelAt
  rcases hcl with ⟨ho, pre, htr, hpre⟩ | ⟨_, hnm⟩
  · exact ⟨ho, ⟨pre, htr, hpre⟩, hdr ho⟩
  · exact absurd hobs hnm

/-- Fault-free chain environment: storage key 0, block hashes equal to
heights, one matching change per block carrying the block hash as raw
data, headers resolving a hash to itself, every blob decodable. -/
def cleanEnv : ChainEnv :=
  ⟨.ok (), .ok 0, fun h => .ok h,
   fun bh => .ok [⟨bh, [⟨0, true, bh⟩]⟩],
   fun bh => .ok bh, fun d => .ok d⟩

theorem backfill_stops_after_observing_cancel_witness :
    (registerGoroutine cleanEnv 0 2 0).bf.outcome = .cancelledStop ∧
    (∃ pre, (registerGoroutine cleanEnv 0 2 0).bf.trace =
        pre ++ [BfOp.checkCancel true] ∧ BfOp.checkCancel true ∉ pre) ∧
    (registerGoroutine cleanEnv 0 2 0).drained = false :=
  backfill_stops_after_observing_cancel cleanEnv 0 2 0 (by decide)

/-! ### Wrapped-callback phases -/

/-- Value of the `subscriptionStartBlock` cell after a stream of wrapper
invocations: the compare-and-swap from the sentinel 0 lets the first
notification (with a non-zero number) win. -/
def casFold (sb : Nat) (ns : List BlockEvents) : Nat :=
  ns.foldl (fun s n => if s = 0 then n.number else s) sb

theorem casFold_ne_zero (sb : Nat) (h : sb ≠ 0) (ns : List BlockEvents) :
    casFold sb ns = sb := by
  induction ns with
  | nil => rfl
  | cons n rest ih =>
    simp only [casFold, List.foldl_cons, if_neg h]
    exact ih

theorem casFold_first (n : BlockEvents) (ns : List BlockEvents)
    (h : n.number ≠ 0) : casFold 0 (n :: ns) = n.number := by
  simp only [casFold, List.foldl_cons, if_pos rfl]
  exact casFold_ne_zero n.number h ns

theorem wrapperPhase_open (sb : Nat) (l ns : List BlockEvents) :
    wrapperPhase sb ⟨l, false⟩ ns = ((casFold sb ns, ⟨l ++ ns, false⟩), []) := by
  induction ns generalizing sb l with
  | nil => simp [wrapperPhase, casFold]
  | cons n rest ih =>
    simp only [wrapperPhase, callbackWrapper, PendingEvents.TryPush]
    simp only [Bool.not_false, if_pos, ih, casFold, List.foldl_cons]
    simp

theorem wrapperPhase_closed (sb : Nat) (l ns : List BlockEvents) :
    wrapperPhase sb ⟨l, true⟩ ns = ((casFold sb ns, ⟨l, true⟩), ns) := by
  induction ns generalizing sb with
  | nil => simp [wrapperPhase, casFold]
  | cons n rest ih =>
    simp [wrapperPhase, callbackWrapper, PendingEvents.TryPush, ih, casFold]

/-! ### Late registration loses all deliveries (claim C1) -/

/-- C1 fails on the code: with `begin` at the captured live-start height
(100), the goroutine takes the skip-replay `return` before ever reaching
`pendingEvents.Do`, so the queue is never drained nor closed: the live
notifications at heights 100, 101 and 102 are all accepted by `TryPush`
into the still-open queue and the real callback is never invoked — the
listener receives zero historical deliveries but also zero live ones,
contradicting the function's own doc comment ("the listener will start
from the latest block"). -/
theorem lateRegistration_never_delivers :
    listenerRun cleanEnv 100 1000 [⟨1, 10, 100⟩] [] [⟨2, 11, 101⟩, ⟨3, 12, 102⟩] =
      ⟨[], [], ⟨[⟨1, 10, 100⟩, ⟨2, 11, 101⟩, ⟨3, 12, 102⟩], false⟩, 100, false⟩ ∧
    (registerGoroutine cleanEnv 100 100 1000).skippedReplay = true ∧
    (registerGoroutine cleanEnv 100 100 1000).drained = false := by
  decide

/-! ### Per-listener delivery order (claim C4) -/

/-- Changes that pass the key/data filter and decode successfully — the
ones a height's replay (or a live notification) actually delivers. -/
def isEffective (env : ChainEnv) (key : StorageKey) (c : Change) : Bool :=
  decide (c.storageKey = key) && c.hasStorageData &&
    (match env.decodeEventRecords c.storageData with
     | .ok _ => true
     | .error _ => false)

/-- Number of effective changes across the change sets one height's
storage query returns. -/
def effectiveTotal (env : ChainEnv) (key : StorageKey) (sets : List ChangeSet) : Nat :=
  (sets.map fun set => (set.changes.filter (isEffective env key)).length).sum

/-- Chain-consistency assumption: under the storage key the code queries,
the change sets returned for a height resolve (via their block hash and
`GetHeader`) back to that height, and carry at most one effective
`System.Events` value — one events blob per block. -/
def EnvConsistent (env : ChainEnv) : Prop :=
  ∀ key, env.createStorageKey = .ok key →
    ∀ h bh, env.getBlockHash h = .ok bh →
      ∀ sets, env.queryStorageAt bh = .ok sets →
        (∀ set ∈ sets, ∀ n, env.getHeader set.block = .ok n → n = h) ∧
        effectiveTotal env key sets ≤ 1

theorem pairwise_of_length_le_one {α : Type} {R : α → α → Prop}
    (l : List α) (h : l.length ≤ 1) : List.Pairwise R l := by
  cases l with
  | nil => exact List.Pairwise.nil
  | cons a t =>
    cases t with
    | nil => simp
    | cons b u => simp at h

theorem backfillChanges_delivered (env : ChainEnv) (key : StorageKey)
    (cancelAt : Nat) (hn : BlockNumber) (bh : Hash) :
    ∀ (cs : List Change) (ck : Nat),
      (∀ e ∈ (backfillChanges env key cancelAt hn bh cs ck).delivered, e.number = hn) ∧
      (backfillChanges env key cancelAt hn bh cs ck).delivered.length ≤
        (cs.filter (isEffective env key)).length := by
  intro cs
  induction cs with
  | nil => intro ck; simp [backfillChanges]
  | cons c rest ih =>
    intro ck
    by_cases hc : c.storageKey = key ∧ c.hasStorageData = true
    · cases hd : env.decodeEventRecords c.storageData with
      | error e =>
        have heff : isEffective env key c = false := by
          simp [isEffective, hd]
        simpa [backfillChanges, hc, hd, List.filter_cons, heff] using ih ck
      | ok ev =>
        have heff : isEffective env key c = true := by
          simp [isEffective, hd, hc.1, hc.2]
        by_cases hca : cancelAt ≤ ck
        · simp [backfillChanges, hc, hd, hca]
        · have hrec := ih (ck + 1)
          constructor
          · intro e he
            simp only [backfillChanges, if_pos hc, hd, if_neg hca,
              List.mem_cons] at he
            rcases he with rfl | he
            · rfl
            · exact hrec.1 e he
          · have hfil : (c :: rest).filter (isEffective env key) =
                c :: rest.filter (isEffective env key) := by
              simp [List.filter_cons, heff]
            simp only [backfillChanges, if_pos hc, hd, if_neg hca, hfil,
              List.length_cons]
            have := hrec.2
            omega
    · have heq : backfillChanges env key cancelAt hn bh (c :: rest) ck =
          backfillChanges env key cancelAt hn bh rest ck := by
        simp [backfillChanges, hc]
      have heff : isEffective env key c = false := by
        rcases not_and_or.mp hc with h1 | h1
        · simp [isEffective, h1]
        · simp only [Bool.not_eq_true] at h1
          simp [isEffective, h1]
      rw [heq]
      simpa [List.filter_cons, heff] using ih ck

theorem backfillSets_delivered (env : ChainEnv) (key : StorageKey)
    (cancelAt : Nat) (h : Nat) :
    ∀ (sets : List ChangeSet) (ck : Nat),
      (∀ set ∈ sets, ∀ n, env.getHeader set.block = .ok n → n = h) →
      (∀ e ∈ (backfillSets env key cancelAt sets ck).delivered, e.number = h) ∧
      (backfillSets env key cancelAt sets ck).delivered.length ≤
        effectiveTotal env key sets := by
  intro sets
  induction sets with
  | nil => intro ck _; simp [backfillSets, effectiveTotal]
  | cons set rest ih =>
    intro ck hcons
    cases hh : env.getHeader set.block with
    | error e => simp [backfillSets, hh, effectiveTotal]
    | ok hn =>
      have hhn : hn = h := hcons set (by simp) hn hh
      subst hhn
      have hch := backfillChanges_delivered env key cancelAt hn set.block set.changes ck
      have htot : effectiveTotal env key (set :: rest) =
          (set.changes.filter (isEffective env key)).length +
            effectiveTotal env key rest := by
        simp [effectiveTotal]
      rcases hout : (backfillChanges env key cancelAt hn set.block set.changes ck).outcome with
        ck' | _ | _
      · have hrec := ih ck' fun s hs n hn2 => hcons s (by simp [hs]) n hn2
        have hdeq : (backfillSets env key cancelAt (set :: rest) ck).delivered =
            (backfillChanges env key cancelAt hn set.block set.changes ck).delivered ++
              (backfillSets env key cancelAt rest ck').delivered := by
          simp [backfillSets, hh, hout]
        constructor
        · intro e he
          rw [hdeq] at he
          rcases List.mem_append.mp he with he | he
          · exact hch.1 e he
          · exact hrec.1 e he
        · rw [hdeq, htot, List.length_append]
          have := hch.2
          have := hrec.2
          omega
      · have hdeq : (backfillSets env key cancelAt (set :: rest) ck).delivered =
            (backfillChanges env key cancelAt hn set.block set.changes ck).delivered := by
          simp [backfillSets, hh, hout]
        rw [hdeq, htot]
        have := hch.2
        exact ⟨hch.1, by omega⟩
      · have hdeq : (backfillSets env key cancelAt (set :: rest) ck).delivered =
            (backfillChanges env key cancelAt hn set.block set.changes ck).delivered := by
          simp [backfillSets, hh, hout]
        rw [hdeq, htot]
        have := hch.2
        exact ⟨hch.1, by omega⟩

theorem backfillLoop_delivered (env : ChainEnv) (key : StorageKey)
    (cancelAt stop : Nat)
    (hcons : ∀ h bh, env.getBlockHash h = .ok bh →
      ∀ sets, env.queryStorageAt bh = .ok sets →
        (∀ set ∈ sets, ∀ n, env.getHeader set.block = .ok n → n = h) ∧
        effectiveTotal env key sets ≤ 1) :
    ∀ (fuel current ck : Nat),
      List.Pairwise (· < ·)
        ((backfillLoop env key cancelAt stop fuel current ck).delivered.map
          BlockEvents.number) ∧
      ∀ e ∈ (backfillLoop env key cancelAt stop fuel current ck).delivered,
        current ≤ e.number ∧ e.number < stop := by
  intro fuel
  induction fuel with
  | zero => intro current ck; simp [backfillLoop]
  | succ fuel ih =>
    intro current ck
    by_cases hlt : current < stop
    · cases hbh : env.getBlockHash current with
      | error e => simp [backfillLoop, hlt, hbh]
      | ok bHash =>
        cases hq : env.queryStorageAt bHash with
        | error e => simp [backfillLoop, hlt, hbh, hq]
        | ok sets =>
          obtain ⟨hhead, heff⟩ := hcons current bHash hbh sets hq
          have hset := backfillSets_delivered env key cancelAt current sets ck hhead
          have hlen1 : (backfillSets env key cancelAt sets ck).delivered.length ≤ 1 :=
            le_trans hset.2 heff
          rcases hout : (backfillSets env key cancelAt sets ck).outcome with ck' | _ | _
          · have hrec := ih (current + 1) ck'
            have hdeq : (backfillLoop env key cancelAt stop (fuel + 1) current ck).delivered =
                (backfillSets env key cancelAt sets ck).delivered ++
                  (backfillLoop env key cancelAt stop fuel (current + 1) ck').delivered := by
              simp [backfillLoop, hlt, hbh, hq, hout]
            rw [hdeq]
            constructor
            · rw [List.map_append, List.pairwise_append]
              refine ⟨pairwise_of_length_le_one _ (by simpa using hlen1), hrec.1, ?_⟩
              intro a ha b hb
              simp only [List.mem_map] at ha hb
              obtain ⟨ea, hea, rfl⟩ := ha
              obtain ⟨eb, heb, rfl⟩ := hb
              have h1 := hset.1 ea hea
              have h2 := (hrec.2 eb heb).1
              omega
            · intro e he
              rcases List.mem_append.mp he with he | he
              · have := hset.1 e he
                omega
              · have := hrec.2 e he
                omega
          · have hdeq : (backfillLoop env key cancelAt stop (fuel + 1) current ck).delivered =
                (backfillSets env key cancelAt sets ck).delivered := by
              simp [backfillLoop, hlt, hbh, hq, hout]
            rw [hdeq]
            refine ⟨pairwise_of_length_le_one _ (by simpa using hlen1), fun e he => ?_⟩
            have := hset.1 e he
            omega
          · have hdeq : (backfillLoop env key cancelAt stop (fuel + 1) current ck).delivered =
                (backfillSets env key cancelAt sets ck).delivered := by
              simp [backfillLoop, hlt, hbh, hq, hout]
            rw [hdeq]
            refine ⟨pairwise_of_length_le_one _ (by simpa using hlen1), fun e he => ?_⟩
            have := hset.1 e he
            omega
    · simp [backfillLoop, hlt]

theorem registerGoroutine_delivered (env : ChainEnv) (henv : EnvConsistent env)
    (begin sb cancelAt : Nat) :
    List.Pairwise (· < ·)
      ((registerGoroutine env begin sb cancelAt).bf.delivered.map BlockEvents.number) ∧
    ∀ e ∈ (registerGoroutine env begin sb cancelAt).bf.delivered, e.number < sb := by
  by_cases hskip : sb ≤ begin
  · simp [registerGoroutine, hskip]
  · cases hm : env.getMetadataLatest with
    | error e => simp [registerGoroutine, hskip, hm]
    | ok u =>
      cases hk : env.createStorageKey with
      | error e => simp [registerGoroutine, hskip, hm, hk]
      | ok key =>
        have hdeq : (registerGoroutine env begin sb cancelAt).bf =
            backfillLoop env key cancelAt sb (sb - begin) begin 0 := by
          rcases hout : (backfillLoop env key cancelAt sb (sb - begin) begin 0).outcome with
            a | _ | _ <;>
            simp [registerGoroutine, hskip, hm, hk, backfillRun, hout]
        have hloop := backfillLoop_delivered env key cancelAt sb (henv key hk)
          (sb - begin) begin 0
        rw [hdeq]
        exact ⟨hloop.1, fun e he => (hloop.2 e he).2⟩

/-- Mirrors `pendingEvents.Do` on an open queue against a drain-compatible
schedule, packaged at the `DoRun` entry point. -/
theorem doRun_drain (l : List BlockEvents) (ps : List (List BlockEvents))
    (hsus : Sustains l.length ps) :
    PendingEvents.DoRun ⟨l, false⟩ ps = (l ++ ps.flatten, ⟨[], true⟩) :=
  PendingEvents.doLoop_drain _ l ps hsus (by simp [PendingEvents.doFuel])

/-- Closed form of a listener's run: when the goroutine reaches the drain,
the callback receives the backfill deliveries, then the whole buffered
and scheduled live stream, then the post-drain stream directly, leaving
the queue empty and closed; otherwise it receives only the backfill
deliveries and every live notification stays buffered in the open queue. -/
theorem listenerRun_eq (env : ChainEnv) (begin cancelAt : Nat)
    (pre : List BlockEvents) (midS : List (List BlockEvents))
    (post : List BlockEvents) (hsus : Sustains pre.length midS) :
    listenerRun env begin cancelAt pre midS post =
      if (registerGoroutine env begin (casFold 0 pre) cancelAt).drained then
        ⟨(registerGoroutine env begin (casFold 0 pre) cancelAt).bf.delivered ++
            (pre ++ midS.flatten ++ post),
          (registerGoroutine env begin (casFold 0 pre) cancelAt).bf.errs,
          ⟨[], true⟩, casFold 0 pre, true⟩
      else
        ⟨(registerGoroutine env begin (casFold 0 pre) cancelAt).bf.delivered,
          (registerGoroutine env begin (casFold 0 pre) cancelAt).bf.errs,
          ⟨pre ++ (midS.flatten ++ post), false⟩, casFold 0 pre, false⟩ := by
  have hwp : wrapperPhase 0 ⟨[], false⟩ pre = ((casFold 0 pre, ⟨pre, false⟩), []) := by
    simpa using wrapperPhase_open 0 [] pre
  by_cases hdr : (registerGoroutine env begin (casFold 0 pre) cancelAt).drained
  · rw [if_pos hdr]
    simp only [listenerRun, hwp, hdr, if_pos, doRun_drain pre midS hsus,
      wrapperPhase_closed]
    simp
  · rw [if_neg hdr]
    simp only [listenerRun, hwp, hdr, if_neg, Bool.false_eq_true,
      wrapperPhase_open]
    simp

/-- C4 fails on the code: the dispatcher's fan-out spawns one unordered
goroutine per (notification, listener) (`go callback(...)`, line 369),
so nothing orders two wrapper invocations of the same listener.  Here
the wrapper for the height-101 notification runs before the height-100
one: the compare-and-swap captures 101 as the live-start height, the
backfill then replays height 100, and the drain replays the queue in
push order 101, 100 — the callback sees block numbers 100, 101, 100: a
decreasing adjacent pair, and the (listener, 100) pair delivered twice,
refuting both halves of the claim. -/
theorem listener_delivery_out_of_order_counterexample :
    listenerRun cleanEnv 100 1000 [⟨1, 101, 101⟩, ⟨2, 100, 100⟩] [] [] =
      ⟨[⟨100, 100, 100⟩, ⟨1, 101, 101⟩, ⟨2, 100, 100⟩], [], ⟨[], true⟩, 101, true⟩ ∧
    ¬ List.Pairwise (· < ·)
      ((listenerRun cleanEnv 100 1000 [⟨1, 101, 101⟩, ⟨2, 100, 100⟩] [] []).delivered.map
        BlockEvents.number) ∧
    ¬ ((listenerRun cleanEnv 100 1000 [⟨1, 101, 101⟩, ⟨2, 100, 100⟩] [] []).delivered.map
        BlockEvents.number).Nodup := by
  decide

/-- C4 amended: under the scheduling assumption that the fan-out
goroutines invoke this listener's wrapper in notification arrival order
— so the wrapper sees strictly increasing, non-zero heights starting at
the captured live-start height; the code spawns the goroutines unordered,
so this is an assumption about the scheduler, not a guarantee of the
code (see the counterexample above) — and under the chain-consistency
assumptions that historical queries resolve to their height with at
most one events blob per block and that the drain schedule is the
accepted one, the block numbers delivered to the real callback across
the backfill path, the queue-drain path and the direct path are
strictly increasing, hence no (listener, block number) pair is
delivered twice.  This holds for every split of the live stream around
the drain, including aborted or cancelled backfills. -/
theorem listener_delivery_strictly_increasing (env : ChainEnv)
    (begin cancelAt : Nat) (n0 : BlockEvents) (pre' : List BlockEvents)
    (midS : List (List BlockEvents)) (post : List BlockEvents)
    (h0 : n0.number ≠ 0)
    (hlive : List.Pairwise (· < ·)
      (((n0 :: pre') ++ midS.flatten ++ post).map BlockEvents.number))
    (henv : EnvConsistent env)
    (hsus : Sustains (n0 :: pre').length midS) :
    List.Pairwise (· < ·)
      ((listenerRun env begin cancelAt (n0 :: pre') midS post).delivered.map
        BlockEvents.number) ∧
    ((listenerRun env begin cancelAt (n0 :: pre') midS post).delivered.map
      BlockEvents.number).Nodup := by
  have hsb : casFold 0 (n0 :: pre') = n0.number := casFold_first n0 pre' h0
  have hbf := registerGoroutine_delivered env henv begin (casFold 0 (n0 :: pre')) cancelAt
  have hpw : List.Pairwise (· < ·)
      ((listenerRun env begin cancelAt (n0 :: pre') midS post).delivered.map
        BlockEvents.number) := by
    rw [listenerRun_eq env begin cancelAt (n0 :: pre') midS post hsus]
    by_cases hdr : (registerGoroutine env begin (casFold 0 (n0 :: pre')) cancelAt).drained
    · simp only [hdr, if_pos]
      rw [List.map_append, List.pairwise_append]
      refine ⟨hbf.1, hlive, ?_⟩
      intro a ha b hb
      simp only [List.mem_map] at ha hb
      obtain ⟨ea, hea, rfl⟩ := ha
      obtain ⟨eb, heb, rfl⟩ := hb
      have h1 : ea.number < casFold 0 (n0 :: pre') := hbf.2 ea hea
      have hlive' : List.Pairwise (· < ·)
          (n0.number :: (pre' ++ midS.flatten ++ post).map BlockEvents.number) := by
        simpa only [List.cons_append, List.map_cons, List.map_append,
          List.append_assoc] using hlive
      obtain ⟨hn0lt, _⟩ := List.pairwise_cons.mp hlive'
      have h2 : n0.number ≤ eb.number := by
        rcases List.mem_cons.mp
            (show eb ∈ n0 :: (pre' ++ midS.flatten ++ post) from heb)
          with rfl | hmem
        · exact le_rfl
        · exact le_of_lt (hn0lt eb.number (List.mem_map_of_mem BlockEvents.number hmem))
      rw [hsb] at h1
      omega
    · simp only [hdr, Bool.false_eq_true, if_neg, not_false_eq_true]
      exact hbf.1
  exact ⟨hpw, hpw.imp Nat.ne_of_lt⟩

theorem envConsistent_cleanEnv : EnvConsistent cleanEnv := by
  intro key hk h bh hbh sets hsets
  simp only [cleanEnv, Except.ok.injEq] at hk hbh hsets
  subst hk
  subst hbh
  subst hsets
  constructor
  · intro set hset n hn
    simp only [List.mem_singleton] at hset
    subst hset
    simp only [cleanEnv, Except.ok.injEq] at hn
    exact hn.symm
  · simp [effectiveTotal, isEffective, cleanEnv]

theorem listener_delivery_strictly_increasing_witness :
    List.Pairwise (· < ·)
      ((listenerRun cleanEnv 3 10 [⟨10, 50, 5⟩] [[⟨11, 51, 6⟩]]
        [⟨12, 52, 7⟩]).delivered.map BlockEvents.number) ∧
    ((listenerRun cleanEnv 3 10 [⟨10, 50, 5⟩] [[⟨11, 51, 6⟩]]
      [⟨12, 52, 7⟩]).delivered.map BlockEvents.number).Nodup :=
  listener_delivery_strictly_increasing cleanEnv 3 10 ⟨10, 50, 5⟩ [] [[⟨11, 51, 6⟩]]
    [⟨12, 52, 7⟩] (by decide) (by decide) envConsistent_cleanEnv (by decide)

/-! ### Backfill failure handling (claim C2) -/

/-- Which of the three historical queries of the backfill loop fails:
the block-hash lookup (line 287), the storage query (line 293), or the
header resolution (line 300). -/
inductive FetchFault
  | blockHash
  | storageQuery
  | header
deriving DecidableEq, Repr

/-- Error message the backfill sends for each kind of fetch failure. -/
def fetchErrMsg : FetchFault → String
  | .blockHash => "get block hash: no hash"
  | .storageQuery => "query storage: no data"
  | .header => "get header: no header"

/-- Environment for the backfill-failure scenarios: storage key 0, block
hashes equal to heights, one matching change per block carrying the hash
as raw data, headers resolving a hash to itself; decoding fails exactly
for the blob of height `hd`, and at height `hf` exactly the query
selected by `k` fails. -/
def faultyEnv (hd hf : Nat) (k : FetchFault) : ChainEnv :=
  ⟨.ok (), .ok 0,
   fun h => if h = hf ∧ k = .blockHash then .error "no hash" else .ok h,
   fun bh => if bh = hf ∧ k = .storageQuery then .error "no data"
     else .ok [⟨bh, [⟨0, true, bh⟩]⟩],
   fun bh => if bh = hf ∧ k = .header then .error "no header" else .ok bh,
   fun d => if d = hd then .error "bad event" else .ok d⟩

/-- C2 as stated fails on the code, in both directions, at concrete
inputs.  First run (fetch error at height 1): the error is reported and
the backfill aborts, but the goroutine returns before `pendingEvents.Do`,
so the queue is never drained: the live notifications at heights 3 and 4
stay buffered forever and the listener receives no live events at all —
refuting "the PendingQueue is still drained so the listener receives
live events going forward".  Second run (decode error at height 1, no
fetch error below the start height 4): the decoder error is reported but
the backfill continues, delivering heights 2 and 3 after the failed
height — refuting "no further historical heights are delivered". -/
theorem backfill_error_claim_counterexample :
    listenerRun (faultyEnv 99 1 .blockHash) 0 1000 [⟨5, 50, 3⟩] [] [⟨6, 51, 4⟩] =
      ⟨[⟨0, 0, 0⟩], ["get block hash: no hash"],
        ⟨[⟨5, 50, 3⟩, ⟨6, 51, 4⟩], false⟩, 3, false⟩ ∧
    (registerGoroutine (faultyEnv 1 99 .blockHash) 0 4 1000).bf.errs =
      ["events decoder: bad event"] ∧
    (registerGoroutine (faultyEnv 1 99 .blockHash) 0 4 1000).bf.delivered =
      [⟨0, 0, 0⟩, ⟨2, 2, 2⟩, ⟨3, 3, 3⟩] ∧
    (registerGoroutine (faultyEnv 1 99 .blockHash) 0 4 1000).drained = true := by
  decide

/-- One backfill height of `faultyEnv` below the failing fetch: at the
decode-failing height the error is reported and the loop moves on; at
any other height the single change is delivered. -/
theorem faulty_step (hd hf cancelAt current ck : Nat) (k : FetchFault)
    (hne : current ≠ hf) (hck : ck < cancelAt) :
    backfillSets (faultyEnv hd hf k) 0 cancelAt [⟨current, [⟨0, true, current⟩]⟩] ck =
      if current = hd then
        ⟨[.fetchHeader current], ["events decoder: bad event"], [], .ok ck⟩
      else
        ⟨[.fetchHeader current, .checkCancel false, .deliver current], [],
          [⟨current, current, current⟩], .ok (ck + 1)⟩ := by
  by_cases hchd : current = hd
  · subst hchd
    simp [backfillSets, backfillChanges, faultyEnv, hne, Nat.not_le.mpr hck]
  · simp [backfillSets, backfillChanges, faultyEnv, hchd, hne, Nat.not_le.mpr hck]

theorem faulty_backfillLoop (hd hf cancelAt stop : Nat) (k : FetchFault)
    (hdf : hd < hf) (hfs : hf < stop) :
    ∀ fuel current ck, current ≤ hf → hf - current < fuel →
      ck + (hf - current) ≤ cancelAt →
      (backfillLoop (faultyEnv hd hf k) 0 cancelAt stop fuel current ck).errs =
        (if current ≤ hd then ["events decoder: bad event"] else []) ++
          [fetchErrMsg k] ∧
      (backfillLoop (faultyEnv hd hf k) 0 cancelAt stop fuel current ck).delivered =
        ((List.range' current (hf - current)).filter fun h => decide (h ≠ hd)).map
          (fun h => ⟨h, h, h⟩) ∧
      (backfillLoop (faultyEnv hd hf k) 0 cancelAt stop fuel current ck).outcome =
        .aborted := by
  intro fuel
  induction fuel with
  | zero => intro current ck h1 h2 h3; omega
  | succ fuel ih =>
    intro current ck h1 h2 h3
    by_cases hcf : current = hf
    · subst hcf
      have hns : current < stop := hfs
      cases k <;>
        simp [backfillLoop, backfillSets, hns, faultyEnv, fetchErrMsg,
          Nat.not_le.mpr hdf]
    · have hlt2 : current < hf := Nat.lt_of_le_of_ne h1 hcf
      have hns : current < stop := by omega
      have hbh : (faultyEnv hd hf k).getBlockHash current = .ok current := by
        simp [faultyEnv, hcf]
      have hq : (faultyEnv hd hf k).queryStorageAt current =
          .ok [⟨current, [⟨0, true, current⟩]⟩] := by
        simp [faultyEnv, hcf]
      have hstep := faulty_step hd hf cancelAt current ck k hcf (by omega)
      have hrange : hf - current = (hf - (current + 1)) + 1 := by omega
      by_cases hchd : current = hd
      · rw [if_pos hchd] at hstep
        have hrec := ih (current + 1) ck (by omega) (by omega) (by omega)
        have hloop : backfillLoop (faultyEnv hd hf k) 0 cancelAt stop (fuel + 1) current ck =
            ⟨.getBlockHash current :: .queryStorage current ::
                ([.fetchHeader current] ++
                  (backfillLoop (faultyEnv hd hf k) 0 cancelAt stop fuel (current + 1) ck).trace),
              ["events decoder: bad event"] ++
                (backfillLoop (faultyEnv hd hf k) 0 cancelAt stop fuel (current + 1) ck).errs,
              [] ++ (backfillLoop (faultyEnv hd hf k) 0 cancelAt stop fuel (current + 1) ck).delivered,
              (backfillLoop (faultyEnv hd hf k) 0 cancelAt stop fuel (current + 1) ck).outcome⟩ := by
          simp only [backfillLoop, if_pos hns, hbh, hq, hstep]
        rw [hloop]
        refine ⟨?_, ?_, hrec.2.2⟩
        · rw [hrec.1]
          have h4 : ¬ (current + 1 ≤ hd) := by omega
          rw [if_neg h4, if_pos (le_of_eq hchd)]
          simp
        · rw [hrec.2.1, hrange, List.range'_succ]
          have h5 : (decide (current ≠ hd)) = false := by simp [hchd]
          simp only [List.filter_cons, h5, List.nil_append]
          simp
      · rw [if_neg hchd] at hstep
        have hrec := ih (current + 1) (ck + 1) (by omega) (by omega) (by omega)
        have hloop : backfillLoop (faultyEnv hd hf k) 0 cancelAt stop (fuel + 1) current ck =
            ⟨.getBlockHash current :: .queryStorage current ::
                ([.fetchHeader current, .checkCancel false, .deliver current] ++
                  (backfillLoop (faultyEnv hd hf k) 0 cancelAt stop fuel (current + 1) (ck + 1)).trace),
              [] ++
                (backfillLoop (faultyEnv hd hf k) 0 cancelAt stop fuel (current + 1) (ck + 1)).errs,
              [⟨current, current, current⟩] ++
                (backfillLoop (faultyEnv hd hf k) 0 cancelAt stop fuel (current + 1) (ck + 1)).delivered,
              (backfillLoop (faultyEnv hd hf k) 0 cancelAt stop fuel (current + 1) (ck + 1)).outcome⟩ := by
          simp only [backfillLoop, if_pos hns, hbh, hq, hstep]
        rw [hloop]
        refine ⟨?_, ?_, hrec.2.2⟩
        · rw [hrec.1]
          by_cases hle : current ≤ hd
          · rw [if_pos hle, if_pos (by omega : current + 1 ≤ hd)]
            simp
          · rw [if_neg hle, if_neg (by omega : ¬ current + 1 ≤ hd)]
            simp
        · rw [hrec.2.1, hrange, List.range'_succ]
          have h5 : (decide (current ≠ hd)) = true := by simp [hchd]
          simp only [List.filter_cons, h5, List.map_cons, List.cons_append,
            List.nil_append]
          simp

/-- Whenever the backfill goroutine ends aborted — whichever of its RPC
calls failed, in any environment — it returned before `pendingEvents.Do`. -/
theorem registerGoroutine_aborted_not_drained (env : ChainEnv)
    (begin sb cancelAt : Nat)
    (h : (registerGoroutine env begin sb cancelAt).bf.outcome = .aborted) :
    (registerGoroutine env begin sb cancelAt).drained = false := by
  by_cases hskip : sb ≤ begin
  · simp [registerGoroutine, hskip] at h
  · cases hm : env.getMetadataLatest with
    | error e => simp [registerGoroutine, hskip, hm]
    | ok u =>
      cases hk : env.createStorageKey with
      | error e => simp [registerGoroutine, hskip, hm, hk]
      | ok key =>
        rcases hout : (backfillRun env key cancelAt begin sb).outcome with a | _ | _
        · simp [registerGoroutine, hskip, hm, hk, hout] at h
        · simp [registerGoroutine, hskip, hm, hk, hout]
        · simp [registerGoroutine, hskip, hm, hk, hout] at h

/-- A listener whose goroutine never reaches the drain delivers only its
backfill prefix: every live notification, whenever it arrives, stays
buffered in the still-open queue and the real callback never sees it. -/
theorem listenerRun_not_drained (env : ChainEnv) (begin cancelAt : Nat)
    (pre : List BlockEvents) (midS : List (List BlockEvents))
    (post : List BlockEvents)
    (h : (registerGoroutine env begin (casFold 0 pre) cancelAt).drained = false) :
    listenerRun env begin cancelAt pre midS post =
      ⟨(registerGoroutine env begin (casFold 0 pre) cancelAt).bf.delivered,
        (registerGoroutine env begin (casFold 0 pre) cancelAt).bf.errs,
        ⟨pre ++ (midS.flatten ++ post), false⟩, casFold 0 pre, false⟩ := by
  have hwp : wrapperPhase 0 ⟨[], false⟩ pre = ((casFold 0 pre, ⟨pre, false⟩), []) := by
    simpa using wrapperPhase_open 0 [] pre
  simp only [listenerRun, hwp, h, Bool.false_eq_true, if_neg,
    not_false_eq_true, wrapperPhase_open]
  simp

/-- C2 amended to the code's behaviour.  First part, for each of the
three fetch-error kinds (block-hash lookup, storage query, header
resolution): the decoder error at height `hd` is sent to the shared
error channel but aborts nothing — only that change is skipped — while
the fetch error at height `hf` is sent to the channel and aborts the
remaining backfill: exactly the heights below `hf` other than `hd` are
delivered, in order.  Second part, for every environment whatsoever:
whenever the backfill aborts, the goroutine returns before
`pendingEvents.Do`, so the PendingQueue is never drained — under every
interleaving all live notifications stay buffered in the still-open
queue and the listener's callback never receives a live event. -/
theorem backfill_fetch_error_aborts_without_drain :
    (∀ (begin hd hf sb cancelAt : Nat) (k : FetchFault),
      begin ≤ hd → hd < hf → hf < sb → sb ≤ cancelAt →
      (registerGoroutine (faultyEnv hd hf k) begin sb cancelAt).bf.errs =
        ["events decoder: bad event", fetchErrMsg k] ∧
      (registerGoroutine (faultyEnv hd hf k) begin sb cancelAt).bf.delivered =
        ((List.range' begin (hf - begin)).filter fun h => decide (h ≠ hd)).map
          (fun h => ⟨h, h, h⟩) ∧
      (registerGoroutine (faultyEnv hd hf k) begin sb cancelAt).bf.outcome =
        .aborted) ∧
    (∀ (env : ChainEnv) (begin cancelAt : Nat) (pre : List BlockEvents)
      (midS : List (List BlockEvents)) (post : List BlockEvents),
      (registerGoroutine env begin (casFold 0 pre) cancelAt).bf.outcome = .aborted →
      listenerRun env begin cancelAt pre midS post =
        ⟨(registerGoroutine env begin (casFold 0 pre) cancelAt).bf.delivered,
          (registerGoroutine env begin (casFold 0 pre) cancelAt).bf.errs,
          ⟨pre ++ (midS.flatten ++ post), false⟩, casFold 0 pre, false⟩) := by
  constructor
  · intro begin hd hf sb cancelAt k h1 h2 h3 h4
    have hskip : ¬ (sb ≤ begin) := by omega
    have hmk : (faultyEnv hd hf k).getMetadataLatest = .ok () := rfl
    have hsk : (faultyEnv hd hf k).createStorageKey = .ok 0 := rfl
    have hloop := faulty_backfillLoop hd hf cancelAt sb k h2 h3 (sb - begin) begin 0
      (by omega) (by omega) (by omega)
    have hbf : (registerGoroutine (faultyEnv hd hf k) begin sb cancelAt).bf =
        backfillLoop (faultyEnv hd hf k) 0 cancelAt sb (sb - begin) begin 0 := by
      rcases hout : (backfillLoop (faultyEnv hd hf k) 0 cancelAt sb (sb - begin) begin 0).outcome
        with a | _ | _ <;>
        simp [registerGoroutine, hskip, hmk, hsk, backfillRun, hout]
    refine ⟨?_, ?_, ?_⟩
    · rw [hbf, hloop.1, if_pos h1]
      rfl
    · rw [hbf, hloop.2.1]
    · rw [hbf, hloop.2.2]
  · intro env begin cancelAt pre midS post habort
    exact listenerRun_not_drained env begin cancelAt pre midS post
      (registerGoroutine_aborted_not_drained env begin _ cancelAt habort)

theorem backfill_fetch_error_aborts_without_drain_witness :
    (registerGoroutine (faultyEnv 1 3 .blockHash) 0 5 9).bf.errs =
      ["events decoder: bad event", "get block hash: no hash"] ∧
    (registerGoroutine (faultyEnv 1 3 .storageQuery) 0 5 9).bf.errs =
      ["events decoder: bad event", "query storage: no data"] ∧
    (registerGoroutine (faultyEnv 1 3 .header) 0 5 9).bf.errs =
      ["events decoder: bad event", "get header: no header"] ∧
    (registerGoroutine (faultyEnv 1 3 .blockHash) 0 5 9).bf.delivered =
      ((List.range' 0 3).filter fun h => decide (h ≠ 1)).map (fun h => ⟨h, h, h⟩) ∧
    listenerRun (faultyEnv 1 3 .blockHash) 0 9 [⟨7, 70, 5⟩] [] [⟨8, 80, 6⟩] =
      ⟨(registerGoroutine (faultyEnv 1 3 .blockHash) 0
          (casFold 0 [⟨7, 70, 5⟩]) 9).bf.delivered,
        (registerGoroutine (faultyEnv 1 3 .blockHash) 0
          (casFold 0 [⟨7, 70, 5⟩]) 9).bf.errs,
        ⟨[⟨7, 70, 5⟩] ++ ([] ++ [⟨8, 80, 6⟩]), false⟩, casFold 0 [⟨7, 70, 5⟩], false⟩ := by
  have h := backfill_fetch_error_aborts_without_drain
  exact ⟨(h.1 0 1 3 5 9 .blockHash (by omega) (by omega) (by omega) (by omega)).1,
    (h.1 0 1 3 5 9 .storageQuery (by omega) (by omega) (by omega) (by omega)).1,
    (h.1 0 1 3 5 9 .header (by omega) (by omega) (by omega) (by omega)).1,
    (h.1 0 1 3 5 9 .blockHash (by omega) (by omega) (by omega) (by omega)).2.1,
    h.2 (faultyEnv 1 3 .blockHash) 0 9 [⟨7, 70, 5⟩] [] [⟨8, 80, 6⟩] (by decide)⟩

end DdcEvents
